/- Verification of the corridor-generation / three-stage floor-plan processing core.

   The development shallowly embeds the two Python modules
     * lib/corridor-generator-complete.py  (class FloorPlanCorridorGenerator)
     * lib/three-stage-processor.py        (class ThreeStageFloorPlanProcessor)
   over exact rational arithmetic (ℚ in place of IEEE floats).  Pure helper
   functions become Lean functions with the same name (leading underscores
   dropped); Python dicts become structures; Python string identifiers are kept
   as `String` where their text matters, or abstracted to `ℕ` where only
   equality is used (room ids in the cluster detector).  Exception handlers in
   the source that cannot fire on the modelled (total) data are noted where
   they occur; defensive `except` fallbacks that ARE reachable (e.g. bounds of
   an empty row) are modelled by the documented fallback value.  Calls to
   `math.sqrt` only ever feed monotone comparisons or argmin searches, so they
   are modelled by comparing squared distances, which is exact over ℚ. -/
import Mathlib

namespace FloorPlan

/-- A 2-D point, the uniform coordinate representation (the Python sources
    accept `[x, y]` lists or `{'x':…,'y':…}` dicts; both denote a pair). -/
abbrev Point : Type := ℚ × ℚ

/-- One cross term `x1*y2 - x2*y1` of the shoelace sum
    (`_calculate_polygon_area`, both modules). -/
def cross (p q : Point) : ℚ := p.1 * q.2 - q.1 * p.2

/-- Signed shoelace sum.  The source iterates `i` over all indices with
    `j = (i+1) % len(polygon)`; zipping the vertex list with its rotation by
    one pairs exactly `(p_i, p_((i+1) % n))` for every `i`. -/
def shoelace_sum (polygon : List Point) : ℚ :=
  ((polygon.zip (polygon.rotate 1)).map (fun pq => cross pq.1 pq.2)).sum

/-- Models `_calculate_polygon_area` (corridor-generator lines 685-707; the
    three-stage version, lines 525-540, computes the same function): polygons
    with fewer than 3 vertices have area 0, otherwise half the absolute
    shoelace sum. -/
def calculate_polygon_area (polygon : List Point) : ℚ :=
  if polygon.length < 3 then 0 else |shoelace_sum polygon| / 2

/-- Open shoelace sum of a vertex path (no closing edge); proof device for the
    rotation/reversal invariance of `shoelace_sum`. -/
def path_sum : List Point → ℚ
  | [] => 0
  | [_] => 0
  | p :: q :: rest => cross p q + path_sum (q :: rest)

/-- First vertex, defaulting to the origin. -/
def phead (l : List Point) : Point := l.headD (0, 0)

/-- Last vertex, defaulting to the origin. -/
def plast (l : List Point) : Point := l.getLastD (0, 0)

theorem zip_rotate_one {α β : Type} (a : List α) (b : List β)
    (h : a.length = b.length) :
    (a.rotate 1).zip (b.rotate 1) = (a.zip b).rotate 1 := by
  cases a with
  | nil => cases b with
    | nil => simp
    | cons y ys => simp at h
  | cons x xs =>
    cases b with
    | nil => simp at h
    | cons y ys =>
      simp only [List.length_cons, Nat.succ.injEq] at h
      rw [show (1 : ℕ) = 0 + 1 from rfl, List.rotate_cons_succ,
        List.rotate_cons_succ, List.rotate_zero, List.rotate_zero,
        List.zip_cons_cons, List.rotate_cons_succ, List.rotate_zero,
        List.zip_append h]
      simp

theorem shoelace_sum_rotate_one (p : List Point) :
    shoelace_sum (p.rotate 1) = shoelace_sum p := by
  unfold shoelace_sum
  rw [zip_rotate_one p (p.rotate 1) (by simp), List.map_rotate]
  exact (List.rotate_perm _ 1).sum_eq

theorem shoelace_sum_rotate (p : List Point) (k : ℕ) :
    shoelace_sum (p.rotate k) = shoelace_sum p := by
  induction k with
  | zero => simp
  | succ n ih =>
    rw [← List.rotate_rotate, shoelace_sum_rotate_one, ih]

theorem zip_sum_eq_path_sum (t : List Point) :
    ∀ a h : Point,
      (((a :: t).zip (t ++ [h])).map (fun pq => cross pq.1 pq.2)).sum
        = path_sum ((a :: t) ++ [h]) := by
  induction t with
  | nil => intro a h; simp [path_sum]
  | cons b t' ih =>
    intro a h
    calc (((a :: b :: t').zip ((b :: t') ++ [h])).map
            (fun pq => cross pq.1 pq.2)).sum
        = cross a b + (((b :: t').zip (t' ++ [h])).map
            (fun pq => cross pq.1 pq.2)).sum := by
          rw [show ((b :: t') ++ [h]) = b :: (t' ++ [h]) from rfl]
          simp
      _ = cross a b + path_sum ((b :: t') ++ [h]) := by rw [ih b h]
      _ = path_sum ((a :: b :: t') ++ [h]) := by simp [path_sum]

theorem shoelace_eq_path_sum (a : Point) (t : List Point) :
    shoelace_sum (a :: t) = path_sum ((a :: t) ++ [a]) := by
  unfold shoelace_sum
  rw [show (1 : ℕ) = 0 + 1 from rfl, List.rotate_cons_succ, List.rotate_zero]
  exact zip_sum_eq_path_sum t a a

theorem path_sum_append_last (t : List Point) :
    ∀ a x : Point,
      path_sum ((a :: t) ++ [x]) = path_sum (a :: t) + cross (plast (a :: t)) x := by
  induction t with
  | nil => intro a x; simp [path_sum, plast]
  | cons b t' ih =>
    intro a x
    rw [show ((a :: b :: t') ++ [x]) = a :: ((b :: t') ++ [x]) from rfl]
    show cross a b + path_sum ((b :: t') ++ [x]) = _
    rw [ih b x, show plast (a :: b :: t') = plast (b :: t') from by
      simp [plast, List.getLastD_cons]]
    show _ = cross a b + path_sum (b :: t') + cross (plast (b :: t')) x
    ring

theorem plast_reverse (l : List Point) : plast l.reverse = phead l := by
  cases l with
  | nil => simp [plast, phead]
  | cons a t =>
    simp [plast, phead, List.reverse_cons, List.getLastD_concat]

theorem path_sum_reverse (l : List Point) : path_sum l.reverse = - path_sum l := by
  induction l with
  | nil => simp [path_sum]
  | cons a t ih =>
    cases t with
    | nil => simp [path_sum]
    | cons b t' =>
      obtain ⟨c, m, hcm⟩ :=
        List.exists_cons_of_ne_nil (l := (b :: t').reverse) (by simp)
      rw [List.reverse_cons, hcm, path_sum_append_last, ← hcm, plast_reverse,
        ih]
      show -path_sum (b :: t') + cross (phead (b :: t')) a
          = -path_sum (a :: b :: t')
      show -path_sum (b :: t') + cross b a
          = -(cross a b + path_sum (b :: t'))
      simp only [cross]
      ring

theorem shoelace_sum_reverse (p : List Point) :
    shoelace_sum p.reverse = - shoelace_sum p := by
  cases p with
  | nil => simp [shoelace_sum]
  | cons a t =>
    obtain ⟨c, m, hcm⟩ :=
      List.exists_cons_of_ne_nil (l := (a :: t).reverse) (by simp)
    have hp : (a :: t) = (c :: m).reverse := by
      rw [← hcm, List.reverse_reverse]
    have hlast : plast (a :: t) = c := by
      rw [hp, plast_reverse]; rfl
    rw [hcm, shoelace_eq_path_sum c m]
    have h1 : (c :: m) ++ [c] = (c :: a :: t).reverse := by
      rw [List.reverse_cons, ← hcm]
    rw [h1, path_sum_reverse]
    rw [shoelace_eq_path_sum a t, path_sum_append_last t a a, hlast]
    show -(cross c a + path_sum (a :: t)) = -(path_sum (a :: t) + cross c a)
    ring

/-- Python `int()` — truncation toward zero — on a rational. -/
def pyInt (q : ℚ) : ℤ := if q < 0 then ⌈q⌉ else ⌊q⌋

/-- Python `str.lower()`, modelled as the per-character lowercase map over the
    string's characters (the room-type strings involved are ASCII). -/
def py_lower (s : String) : String := String.mk (s.data.map Char.toLower)

namespace CorridorGen

/-- A bounding box (`{'minX':…,'minY':…,'maxX':…,'maxY':…}` dicts). -/
structure Bounds where
  minX : ℚ
  minY : ℚ
  maxX : ℚ
  maxY : ℚ
deriving DecidableEq

/-- An analyzed room record as produced by `analyze_floor_plan` (lines 54-65):
    identifier, centroid, area, bounding box.  The Python string id is
    abstracted to `ℕ` (only id equality is ever used, via the `visited` set);
    the `type` and `original` fields are never read downstream and are
    omitted. -/
structure Room where
  rid : ℕ
  cx : ℚ
  cy : ℚ
  area : ℚ
  bounds : Bounds
deriving DecidableEq

/-- A corridor rectangle: origin, size, derived area, a type tag and a
    dominant direction, as built by the corridor constructors. -/
structure Corridor where
  cid : String
  ctype : String
  x : ℚ
  y : ℚ
  width : ℚ
  height : ℚ
  area : ℚ
  direction : String
deriving DecidableEq

/-- Models `_can_merge_corridors` (lines 985-1008): corridors merge when aligned on
    one axis within a 0.1 tolerance (position and size) and touching
    end-to-end within the same tolerance on the other axis.  The body cannot
    raise, so the `except False` branch is dead. -/
def can_merge_corridors (c1 c2 : Corridor) : Bool :=
  let tolerance : ℚ := 1/10
  if |c1.y - c2.y| < tolerance ∧ |c1.height - c2.height| < tolerance then
    decide (|c1.x + c1.width - c2.x| < tolerance ∨
      |c2.x + c2.width - c1.x| < tolerance)
  else if |c1.x - c2.x| < tolerance ∧ |c1.width - c2.width| < tolerance then
    decide (|c1.y + c1.height - c2.y| < tolerance ∨
      |c2.y + c2.height - c1.y| < tolerance)
  else
    false

/-- Models `_merge_corridors` (lines 1010-1030): replace two corridors by their
    bounding-rectangle union; id/type/direction taken as in the source (every
    corridor in this model carries all keys, so the `.get` defaults and the
    `except` fallback are dead). -/
def merge_corridors (c1 c2 : Corridor) : Corridor :=
  let min_x := min c1.x c2.x
  let min_y := min c1.y c2.y
  let max_x := max (c1.x + c1.width) (c2.x + c2.width)
  let max_y := max (c1.y + c1.height) (c2.y + c2.height)
  { cid := "merged_" ++ c1.cid ++ "_" ++ c2.cid
    ctype := c1.ctype
    x := min_x
    y := min_y
    width := max_x - min_x
    height := max_y - min_y
    area := (max_x - min_x) * (max_y - min_y)
    direction := c1.direction }

/-- Inner scan of `_optimize_corridor_network`'s merge pass (lines 969-976):
    starting from `current`, walk the later corridors left to right, folding
    every mergeable one into `current` (marking it used); return the final
    merged corridor and the corridors left unconsumed, in order.  This is the
    index-free reading of the Python `used` index set: indices already
    consumed never reappear, and the `j` scan only moves forward. -/
def merge_scan (current : Corridor) : List Corridor → Corridor × List Corridor
  | [] => (current, [])
  | c :: rest =>
    if can_merge_corridors current c then
      merge_scan (merge_corridors current c) rest
    else
      let pr := merge_scan current rest
      (pr.1, c :: pr.2)

theorem merge_scan_rem_length (l : List Corridor) :
    ∀ current, ((merge_scan current l).2).length ≤ l.length := by
  induction l with
  | nil => intro current; simp [merge_scan]
  | cons c rest ih =>
    intro current
    by_cases h : can_merge_corridors current c
    · rw [merge_scan, if_pos h]
      exact le_trans (ih _) (Nat.le_succ _)
    · rw [merge_scan, if_neg h]
      simpa using ih current

/-- Outer loop of `_optimize_corridor_network`'s merge pass (lines 962-978):
    each unconsumed corridor in turn absorbs all later mergeable corridors. -/
def merge_pass : List Corridor → List Corridor
  | [] => []
  | c :: rest =>
    (merge_scan c rest).1 :: merge_pass (merge_scan c rest).2
termination_by l => l.length
decreasing_by
  exact Nat.lt_succ_of_le (merge_scan_rem_length rest c)

/-- Models `_optimize_corridor_network` (lines 944-983): drop corridors of area
    ≤ 2.0, then run the single merge pass. -/
def optimize_corridor_network (corridors : List Corridor) : List Corridor :=
  if corridors = [] then []
  else merge_pass (corridors.filter (fun c => decide (2 < c.area)))

/-- A corridor whose stored area is consistent with nonnegative extents. -/
def GoodRect (c : Corridor) : Prop :=
  0 ≤ c.width ∧ 0 ≤ c.height ∧ c.area = c.width * c.height

theorem merge_corridors_good (c1 c2 : Corridor) (h : GoodRect c1) :
    GoodRect (merge_corridors c1 c2) ∧ c1.area ≤ (merge_corridors c1 c2).area := by
  obtain ⟨hw, hh, ha⟩ := h
  have hwle : c1.width ≤ max (c1.x + c1.width) (c2.x + c2.width) - min c1.x c2.x := by
    have h1 : c1.x + c1.width ≤ max (c1.x + c1.width) (c2.x + c2.width) :=
      le_max_left _ _
    have h2 : min c1.x c2.x ≤ c1.x := min_le_left _ _
    linarith
  have hhle : c1.height ≤ max (c1.y + c1.height) (c2.y + c2.height) - min c1.y c2.y := by
    have h1 : c1.y + c1.height ≤ max (c1.y + c1.height) (c2.y + c2.height) :=
      le_max_left _ _
    have h2 : min c1.y c2.y ≤ c1.y := min_le_left _ _
    linarith
  have hw' : 0 ≤ max (c1.x + c1.width) (c2.x + c2.width) - min c1.x c2.x :=
    le_trans hw hwle
  have hh' : 0 ≤ max (c1.y + c1.height) (c2.y + c2.height) - min c1.y c2.y :=
    le_trans hh hhle
  refine ⟨⟨hw', hh', rfl⟩, ?_⟩
  rw [ha]
  exact mul_le_mul hwle hhle hh hw'

theorem merge_scan_good (l : List Corridor) :
    ∀ current, GoodRect current → 2 < current.area →
      (GoodRect (merge_scan current l).1 ∧ 2 < ((merge_scan current l).1).area) ∧
      (∀ c ∈ (merge_scan current l).2, c ∈ l) := by
  induction l with
  | nil => intro current hg ha; exact ⟨⟨hg, ha⟩, by simp [merge_scan]⟩
  | cons c rest ih =>
    intro current hg ha
    by_cases h : can_merge_corridors current c
    · rw [merge_scan, if_pos h]
      obtain ⟨hg', hle⟩ := merge_corridors_good current c hg
      obtain ⟨hmain, hrem⟩ := ih _ hg' (lt_of_lt_of_le ha hle)
      exact ⟨hmain, fun d hd => List.mem_cons_of_mem _ (hrem d hd)⟩
    · rw [merge_scan, if_neg h]
      obtain ⟨hmain, hrem⟩ := ih current hg ha
      refine ⟨hmain, ?_⟩
      intro d hd
      simp only [List.mem_cons] at hd
      rcases hd with rfl | hd
      · exact List.mem_cons_self _ _
      · exact List.mem_cons_of_mem _ (hrem d hd)

theorem merge_pass_good (l : List Corridor)
    (hl : ∀ c ∈ l, GoodRect c ∧ 2 < c.area) :
    ∀ c ∈ merge_pass l, GoodRect c ∧ 2 < c.area := by
  induction l using merge_pass.induct with
  | case1 => simp [merge_pass]
  | case2 c rest ih =>
    intro d hd
    rw [merge_pass] at hd
    have hc := hl c (List.mem_cons_self _ _)
    obtain ⟨hmain, hrem⟩ := merge_scan_good rest c hc.1 hc.2
    simp only [List.mem_cons] at hd
    rcases hd with rfl | hd
    · exact hmain
    · exact ih (fun e he => hl e (List.mem_cons_of_mem _ (hrem e he))) d hd

theorem merge_pass_length (l : List Corridor) :
    (merge_pass l).length ≤ l.length := by
  induction l using merge_pass.induct with
  | case1 => simp [merge_pass]
  | case2 c rest ih =>
    rw [merge_pass]
    simp only [List.length_cons]
    have := merge_scan_rem_length rest c
    omega

theorem optimize_length_le (l : List Corridor) :
    (optimize_corridor_network l).length ≤ l.length := by
  unfold optimize_corridor_network
  by_cases h : l = []
  · simp [h]
  · rw [if_neg h]
    exact le_trans (merge_pass_length _) (List.length_filter_le _ _)

/-- Squared Euclidean distance between room centroids.  The source compares
    `math.sqrt(dx**2 + dy**2)` against nonnegative thresholds; comparing the
    square against the squared threshold is equivalent and exact over ℚ. -/
def room_dist_sq (a b : Room) : ℚ := (a.cx - b.cx) ^ 2 + (a.cy - b.cy) ^ 2

/-- Room-id set of a list (the Python `visited` set holds ids). -/
def ids (l : List Room) : Finset ℕ := (l.map Room.rid).toFinset

theorem ids_subset_cons (r : Room) (rs : List Room) : ids rs ⊆ ids (r :: rs) := by
  intro x hx
  simp only [ids, List.map_cons, List.toFinset_cons, Finset.mem_insert]
  right
  simpa [ids] using hx

theorem card_mul_fresh {A v : Finset ℕ} {a : ℕ} (hv : a ∉ v) (n : ℕ) :
    (A \ insert a v).card * (n + 2) + n + 1 < ((insert a A) \ v).card * (n + 2) := by
  have hsub : A \ insert a v ⊆ (insert a A \ v).erase a := by
    intro x hx
    simp only [Finset.mem_sdiff, Finset.mem_insert, Finset.mem_erase, not_or] at *
    tauto
  have hmem : a ∈ insert a A \ v :=
    Finset.mem_sdiff.mpr ⟨Finset.mem_insert_self a A, hv⟩
  have hcard : (A \ insert a v).card + 1 ≤ (insert a A \ v).card := by
    have h1 := Finset.card_le_card hsub
    rw [Finset.card_erase_of_mem hmem] at h1
    have h2 := Finset.card_pos.mpr ⟨a, hmem⟩
    omega
  have h2 := mul_le_mul_right' hcard (n + 2)
  rw [add_mul, one_mul] at h2
  omega

theorem scan_measure_lt {aR rs : List Room} {r : Room} {v w : Finset ℕ}
    (hvw : v ⊆ w) :
    ((ids aR ∪ ids rs) \ w).card * (aR.length + 2) + rs.length + 1 <
    ((ids aR ∪ ids (r :: rs)) \ v).card * (aR.length + 2) + (r :: rs).length + 1 := by
  have hsu : (ids aR ∪ ids rs) \ w ⊆ (ids aR ∪ ids (r :: rs)) \ v :=
    Finset.sdiff_subset_sdiff
      (Finset.union_subset_union_right (ids_subset_cons r rs)) hvw
  have := mul_le_mul_right' (Finset.card_le_card hsu) (aR.length + 2)
  simp only [List.length_cons]
  omega

theorem call_measure_lt {aR : List Room} (rs : List Room) {r : Room} {v : Finset ℕ} :
    (insert r.rid (ids aR) \ v).card * (aR.length + 2) <
    ((ids aR ∪ ids (r :: rs)) \ v).card * (aR.length + 2) + (r :: rs).length + 1 := by
  have hsu : insert r.rid (ids aR) \ v ⊆ (ids aR ∪ ids (r :: rs)) \ v := by
    refine Finset.sdiff_subset_sdiff ?_ (Finset.Subset.refl _)
    intro x hx
    simp only [Finset.mem_insert, Finset.mem_union] at hx ⊢
    rcases hx with rfl | hx
    · right; simp [ids]
    · left; exact hx
  have := mul_le_mul_right' (Finset.card_le_card hsu) (aR.length + 2)
  simp only [List.length_cons]
  omega

mutual
/-- Models `_explore_cluster` (lines 199-220), in visited-delta form: returns the
    list of rooms newly appended to the cluster.  In the source,
    `visited.add(room['id'])` and `cluster.append(room)` always happen
    together, so the mutable `visited` set after a call equals
    `ids (returned delta) ∪ visited`; callers thread that set explicitly. -/
def explore_cluster (all_rooms : List Room) (room : Room) (visited : Finset ℕ) :
    List Room :=
  if room.rid ∈ visited then []
  else room :: explore_scan all_rooms all_rooms room (insert room.rid visited)
termination_by
  ((insert room.rid (ids all_rooms)) \ visited).card * (all_rooms.length + 2)
decreasing_by
  simp only [Finset.union_self]
  exact card_mul_fresh (by assumption) _

/-- The `for other_room in all_rooms` loop of `_explore_cluster`: skip rooms
    whose id is already visited, recurse into rooms within centroid distance
    10.0 (`max_distance`) of `room`. -/
def explore_scan (all_rooms scan : List Room) (room : Room) (visited : Finset ℕ) :
    List Room :=
  match scan with
  | [] => []
  | r :: rs =>
    if r.rid ∈ visited then explore_scan all_rooms rs room visited
    else if room_dist_sq room r ≤ 100 then
      let d := explore_cluster all_rooms r visited
      d ++ explore_scan all_rooms rs room (ids d ∪ visited)
    else explore_scan all_rooms rs room visited
termination_by
  ((ids all_rooms ∪ ids scan) \ visited).card * (all_rooms.length + 2) +
    scan.length + 1
decreasing_by
  · exact scan_measure_lt (Finset.Subset.refl _)
  · exact call_measure_lt rs
  · exact scan_measure_lt Finset.subset_union_right
  · exact scan_measure_lt (Finset.Subset.refl _)
end

theorem mem_ids {x : ℕ} {l : List Room} : x ∈ ids l ↔ ∃ r ∈ l, r.rid = x := by
  simp [ids]

theorem ids_append (l1 l2 : List Room) : ids (l1 ++ l2) = ids l1 ∪ ids l2 := by
  simp [ids]

theorem ids_cons (r : Room) (l : List Room) :
    ids (r :: l) = insert r.rid (ids l) := by
  simp [ids]

theorem explore_cluster_eq_mem (aR : List Room) (room : Room) (v : Finset ℕ)
    (h : room.rid ∈ v) : explore_cluster aR room v = [] := by
  unfold explore_cluster
  rw [if_pos h]

theorem explore_cluster_eq_fresh (aR : List Room) (room : Room) (v : Finset ℕ)
    (h : room.rid ∉ v) :
    explore_cluster aR room v =
      room :: explore_scan aR aR room (insert room.rid v) := by
  unfold explore_cluster
  rw [if_neg h]

theorem explore_scan_eq_nil (aR : List Room) (room : Room) (v : Finset ℕ) :
    explore_scan aR [] room v = [] := by
  conv_lhs => rw [explore_scan.eq_def]

theorem explore_scan_eq_mem (aR : List Room) (r : Room) (rs : List Room)
    (room : Room) (v : Finset ℕ) (h : r.rid ∈ v) :
    explore_scan aR (r :: rs) room v = explore_scan aR rs room v := by
  conv_lhs => rw [explore_scan.eq_def]
  show (if r.rid ∈ v then _ else _) = _
  rw [if_pos h]

theorem explore_scan_eq_near (aR : List Room) (r : Room) (rs : List Room)
    (room : Room) (v : Finset ℕ) (h : r.rid ∉ v)
    (hd : room_dist_sq room r ≤ 100) :
    explore_scan aR (r :: rs) room v =
      explore_cluster aR r v ++
        explore_scan aR rs room (ids (explore_cluster aR r v) ∪ v) := by
  conv_lhs => rw [explore_scan.eq_def]
  show (if r.rid ∈ v then _ else _) = _
  rw [if_neg h, if_pos hd]

theorem explore_scan_eq_far (aR : List Room) (r : Room) (rs : List Room)
    (room : Room) (v : Finset ℕ) (h : r.rid ∉ v)
    (hd : ¬ room_dist_sq room r ≤ 100) :
    explore_scan aR (r :: rs) room v = explore_scan aR rs room v := by
  conv_lhs => rw [explore_scan.eq_def]
  show (if r.rid ∈ v then _ else _) = _
  rw [if_neg h, if_neg hd]

/-- Invariant pack for `explore_cluster`: the returned delta contains only
    ids fresh w.r.t. `visited`, has pairwise distinct ids, draws its rooms
    from `room` and `all_rooms`, visits `room` itself whenever fresh, and is
    closed under the proximity relation: every neighbour (within distance 10)
    of a delta room ends up visited. -/
def ExploreClusterSpec (aR : List Room) (room : Room) (v : Finset ℕ) : Prop :=
  (∀ r ∈ explore_cluster aR room v, r.rid ∉ v) ∧
  ((explore_cluster aR room v).map Room.rid).Nodup ∧
  (∀ r ∈ explore_cluster aR room v, r = room ∨ r ∈ aR) ∧
  room.rid ∈ ids (explore_cluster aR room v) ∪ v ∧
  (room.rid ∉ v → room ∈ explore_cluster aR room v) ∧
  (∀ a ∈ explore_cluster aR room v, ∀ b ∈ aR, room_dist_sq a b ≤ 100 →
    b.rid ∈ ids (explore_cluster aR room v) ∪ v)

/-- Invariant pack for `explore_scan` (the inner loop of `_explore_cluster`),
    mirroring `ExploreClusterSpec` plus the loop guarantee: every scanned
    neighbour of the focus `room` ends up visited. -/
def ExploreScanSpec (aR scan : List Room) (room : Room) (v : Finset ℕ) : Prop :=
  (∀ r ∈ explore_scan aR scan room v, r.rid ∉ v) ∧
  ((explore_scan aR scan room v).map Room.rid).Nodup ∧
  (∀ r ∈ explore_scan aR scan room v, r ∈ scan ∨ r ∈ aR) ∧
  (∀ b ∈ scan, room_dist_sq room b ≤ 100 →
    b.rid ∈ ids (explore_scan aR scan room v) ∪ v) ∧
  (∀ a ∈ explore_scan aR scan room v, ∀ b ∈ aR, room_dist_sq a b ≤ 100 →
    b.rid ∈ ids (explore_scan aR scan room v) ∪ v)

theorem explore_spec_case1 (aR : List Room) : ∀ (room : Room) (v : Finset ℕ),
    room.rid ∈ v → ExploreClusterSpec aR room v := by
  intro room v h
  have he := explore_cluster_eq_mem aR room v h
  refine ⟨by rw [he]; simp, by rw [he]; simp, by rw [he]; simp, ?_, ?_,
    by rw [he]; simp⟩
  · rw [he]
    simpa [ids] using h
  · intro hf
    exact absurd h hf

theorem explore_spec_case2 (aR : List Room) : ∀ (room : Room) (v : Finset ℕ),
    room.rid ∉ v → ExploreScanSpec aR aR room (insert room.rid v) →
    ExploreClusterSpec aR room v := by
  intro room v hfresh hS
  obtain ⟨S1, S2, S3, S4, S5⟩ := hS
  have he := explore_cluster_eq_fresh aR room v hfresh
  have hset : ids (room :: explore_scan aR aR room (insert room.rid v)) ∪ v
      = ids (explore_scan aR aR room (insert room.rid v)) ∪ insert room.rid v := by
    rw [ids_cons]
    ext x
    simp only [Finset.mem_union, Finset.mem_insert]
    tauto
  refine ⟨?_, ?_, ?_, ?_, ?_, ?_⟩
  · rw [he]
    intro r hr
    rcases List.mem_cons.mp hr with rfl | hr
    · exact hfresh
    · intro hv
      exact S1 r hr (Finset.mem_insert_of_mem hv)
  · rw [he]
    simp only [List.map_cons, List.nodup_cons]
    refine ⟨?_, S2⟩
    intro hmem
    obtain ⟨r, hr, hrid⟩ := List.mem_map.mp hmem
    exact S1 r hr (hrid ▸ Finset.mem_insert_self _ _)
  · rw [he]
    intro r hr
    rcases List.mem_cons.mp hr with rfl | hr
    · exact Or.inl rfl
    · rcases S3 r hr with h | h
      · exact Or.inr h
      · exact Or.inr h
  · rw [he, ids_cons]
    exact Finset.mem_union_left _ (Finset.mem_insert_self _ _)
  · intro _
    rw [he]
    exact List.mem_cons_self _ _
  · rw [he]
    intro a ha b hb hd
    rw [hset]
    rcases List.mem_cons.mp ha with rfl | ha
    · exact S4 b hb hd
    · exact S5 a ha b hb hd

theorem explore_spec_case3 (aR : List Room) : ∀ (room : Room) (v : Finset ℕ),
    ExploreScanSpec aR [] room v := by
  intro room v
  have he := explore_scan_eq_nil aR room v
  refine ⟨?_, ?_, ?_, ?_, ?_⟩ <;> rw [he] <;> simp

theorem explore_spec_case4 (aR : List Room) : ∀ (room : Room) (v : Finset ℕ)
    (r : Room) (rs : List Room), r.rid ∈ v → ExploreScanSpec aR rs room v →
    ExploreScanSpec aR (r :: rs) room v := by
  intro room v r rs hmem hS
  obtain ⟨S1, S2, S3, S4, S5⟩ := hS
  have he := explore_scan_eq_mem aR r rs room v hmem
  refine ⟨?_, ?_, ?_, ?_, ?_⟩
  · rw [he]; exact S1
  · rw [he]; exact S2
  · rw [he]
    intro r' hr'
    rcases S3 r' hr' with h | h
    · exact Or.inl (List.mem_cons_of_mem _ h)
    · exact Or.inr h
  · rw [he]
    intro b hb hd
    rcases List.mem_cons.mp hb with rfl | hb
    · exact Finset.mem_union_right _ hmem
    · exact S4 b hb hd
  · rw [he]; exact S5

theorem explore_spec_case5 (aR : List Room) : ∀ (room : Room) (v : Finset ℕ)
    (r : Room) (rs : List Room), r.rid ∉ v → room_dist_sq room r ≤ 100 →
    ExploreClusterSpec aR r v →
    ExploreScanSpec aR rs room (ids (explore_cluster aR r v) ∪ v) →
    ExploreScanSpec aR (r :: rs) room v := by
  intro room v r rs hfr hd hE hS
  obtain ⟨E1, E2, E3, E4, E5, E6⟩ := hE
  obtain ⟨S1, S2, S3, S4, S5⟩ := hS
  have he := explore_scan_eq_near aR r rs room v hfr hd
  have hset : ids (explore_cluster aR r v ++
        explore_scan aR rs room (ids (explore_cluster aR r v) ∪ v)) ∪ v
      = ids (explore_scan aR rs room (ids (explore_cluster aR r v) ∪ v)) ∪
        (ids (explore_cluster aR r v) ∪ v) := by
    rw [ids_append]
    ext x
    simp only [Finset.mem_union]
    tauto
  refine ⟨?_, ?_, ?_, ?_, ?_⟩
  · rw [he]
    intro r' hr'
    rcases List.mem_append.mp hr' with h | h
    · exact E1 r' h
    · intro hv
      exact S1 r' h (Finset.mem_union_right _ hv)
  · rw [he, List.map_append, List.nodup_append]
    refine ⟨E2, S2, ?_⟩
    intro x hx hx2
    obtain ⟨r1, hr1, hrid1⟩ := List.mem_map.mp hx
    obtain ⟨r2, hr2, hrid2⟩ := List.mem_map.mp hx2
    apply S1 r2 hr2
    apply Finset.mem_union_left
    rw [hrid2, ← hrid1]
    exact mem_ids.mpr ⟨r1, hr1, rfl⟩
  · rw [he]
    intro r' hr'
    rcases List.mem_append.mp hr' with h | h
    · rcases E3 r' h with h' | h'
      · exact Or.inl (by rw [h']; exact List.mem_cons_self _ _)
      · exact Or.inr h'
    · rcases S3 r' h with h' | h'
      · exact Or.inl (List.mem_cons_of_mem _ h')
      · exact Or.inr h'
  · rw [he]
    intro b hb hdist
    rw [hset]
    rcases List.mem_cons.mp hb with rfl | hb
    · exact Finset.mem_union_right _ E4
    · exact S4 b hb hdist
  · rw [he]
    intro a ha b hb hdist
    rw [hset]
    rcases List.mem_append.mp ha with h | h
    · exact Finset.mem_union_right _ (E6 a h b hb hdist)
    · exact S5 a h b hb hdist

theorem explore_spec_case6 (aR : List Room) : ∀ (room : Room) (v : Finset ℕ)
    (r : Room) (rs : List Room), r.rid ∉ v → ¬ room_dist_sq room r ≤ 100 →
    ExploreScanSpec aR rs room v → ExploreScanSpec aR (r :: rs) room v := by
  intro room v r rs hfr hfar hS
  obtain ⟨S1, S2, S3, S4, S5⟩ := hS
  have he := explore_scan_eq_far aR r rs room v hfr hfar
  refine ⟨?_, ?_, ?_, ?_, ?_⟩
  · rw [he]; exact S1
  · rw [he]; exact S2
  · rw [he]
    intro r' hr'
    rcases S3 r' hr' with h | h
    · exact Or.inl (List.mem_cons_of_mem _ h)
    · exact Or.inr h
  · rw [he]
    intro b hb hdist
    rcases List.mem_cons.mp hb with rfl | hb
    · exact absurd hdist hfar
    · exact S4 b hb hdist
  · rw [he]; exact S5

theorem explore_cluster_spec (aR : List Room) (room : Room) (v : Finset ℕ) :
    ExploreClusterSpec aR room v :=
  explore_cluster.induct aR (ExploreClusterSpec aR) (ExploreScanSpec aR)
    (explore_spec_case1 aR) (explore_spec_case2 aR) (explore_spec_case3 aR)
    (explore_spec_case4 aR) (explore_spec_case5 aR) (explore_spec_case6 aR)
    room v

/-- Models `_identify_room_clusters` outer loop (lines 188-195): each unvisited room
    seeds one cluster via `_explore_cluster`; visited rooms are skipped. -/
def clusters_aux (all_rooms : List Room) : List Room → Finset ℕ → List (List Room)
  | [], _ => []
  | room :: rest, visited =>
    if room.rid ∈ visited then clusters_aux all_rooms rest visited
    else
      let cluster := explore_cluster all_rooms room visited
      if cluster = [] then clusters_aux all_rooms rest (ids cluster ∪ visited)
      else cluster :: clusters_aux all_rooms rest (ids cluster ∪ visited)

/-- Models `_identify_room_clusters` (lines 180-197). -/
def identify_room_clusters (rooms : List Room) : List (List Room) :=
  if rooms = [] then [] else clusters_aux rooms rooms ∅

theorem clusters_aux_eq_nil (aR : List Room) (v : Finset ℕ) :
    clusters_aux aR [] v = [] := rfl

theorem clusters_aux_eq_mem (aR : List Room) (room : Room) (rest : List Room)
    (v : Finset ℕ) (h : room.rid ∈ v) :
    clusters_aux aR (room :: rest) v = clusters_aux aR rest v := by
  simp only [clusters_aux]
  rw [if_pos h]

theorem clusters_aux_eq_fresh (aR : List Room) (room : Room) (rest : List Room)
    (v : Finset ℕ) (h : room.rid ∉ v)
    (hne : explore_cluster aR room v ≠ []) :
    clusters_aux aR (room :: rest) v =
      explore_cluster aR room v ::
        clusters_aux aR rest (ids (explore_cluster aR room v) ∪ v) := by
  simp only [clusters_aux]
  rw [if_neg h, if_neg hne]

theorem rid_inj {rooms : List Room} (h : (rooms.map Room.rid).Nodup) :
    ∀ a ∈ rooms, ∀ b ∈ rooms, a.rid = b.rid → a = b :=
  fun _ ha _ hb heq => List.inj_on_of_nodup_map h ha hb heq

theorem room_dist_sq_symm (a b : Room) : room_dist_sq a b = room_dist_sq b a := by
  unfold room_dist_sq
  ring

theorem clusters_aux_sub (rooms : List Room) :
    ∀ (rest : List Room) (v : Finset ℕ), (∀ r ∈ rest, r ∈ rooms) →
      ∀ cl ∈ clusters_aux rooms rest v, ∀ r ∈ cl, r ∈ rooms ∧ r.rid ∉ v := by
  intro rest
  induction rest with
  | nil =>
    intro v _ cl hcl
    rw [clusters_aux_eq_nil] at hcl
    exact absurd hcl (List.not_mem_nil _)
  | cons room rest ih =>
    intro v hsub cl hcl
    by_cases hv : room.rid ∈ v
    · rw [clusters_aux_eq_mem rooms room rest v hv] at hcl
      exact ih v (fun r hr => hsub r (List.mem_cons_of_mem _ hr)) cl hcl
    · obtain ⟨E1, E2, E3, E4, E5, E6⟩ := explore_cluster_spec rooms room v
      rw [clusters_aux_eq_fresh rooms room rest v hv
        (List.ne_nil_of_mem (E5 hv))] at hcl
      rcases List.mem_cons.mp hcl with rfl | hcl
      · intro r hr
        refine ⟨?_, E1 r hr⟩
        rcases E3 r hr with rfl | h
        · exact hsub r (List.mem_cons_self _ _)
        · exact h
      · intro r hr
        have hres := ih _ (fun r' hr' => hsub r' (List.mem_cons_of_mem _ hr'))
          cl hcl r hr
        exact ⟨hres.1, fun hv' => hres.2 (Finset.mem_union_right _ hv')⟩

theorem clusters_aux_cover (rooms : List Room)
    (hnodup : (rooms.map Room.rid).Nodup) :
    ∀ (rest : List Room) (v : Finset ℕ), (∀ r ∈ rest, r ∈ rooms) →
      ∀ r ∈ rest, r.rid ∉ v → ∃ cl ∈ clusters_aux rooms rest v, r ∈ cl := by
  intro rest
  induction rest with
  | nil => intro v _ r hr; exact absurd hr (List.not_mem_nil _)
  | cons room rest ih =>
    intro v hsub r hr hfr
    by_cases hv : room.rid ∈ v
    · rw [clusters_aux_eq_mem rooms room rest v hv]
      rcases List.mem_cons.mp hr with rfl | hr'
      · exact absurd hv hfr
      · exact ih v (fun r' h => hsub r' (List.mem_cons_of_mem _ h)) r hr' hfr
    · obtain ⟨E1, E2, E3, E4, E5, E6⟩ := explore_cluster_spec rooms room v
      rw [clusters_aux_eq_fresh rooms room rest v hv
        (List.ne_nil_of_mem (E5 hv))]
      rcases List.mem_cons.mp hr with rfl | hr'
      · exact ⟨explore_cluster rooms r v, List.mem_cons_self _ _, E5 hfr⟩
      · by_cases hin : r.rid ∈ ids (explore_cluster rooms room v)
        · obtain ⟨r', hr'mem, hr'id⟩ := mem_ids.mp hin
          have hr'rooms : r' ∈ rooms := by
            rcases E3 r' hr'mem with rfl | h
            · exact hsub r' (List.mem_cons_self _ _)
            · exact h
          have heq : r' = r :=
            rid_inj hnodup r' hr'rooms r (hsub r (List.mem_cons_of_mem _ hr'))
              hr'id
          exact ⟨explore_cluster rooms room v, List.mem_cons_self _ _,
            heq ▸ hr'mem⟩
        · have hfr' : r.rid ∉ ids (explore_cluster rooms room v) ∪ v := by
            intro hmem
            rcases Finset.mem_union.mp hmem with h | h
            · exact hin h
            · exact hfr h
          obtain ⟨cl, hcl, hrcl⟩ := ih _
            (fun r' h => hsub r' (List.mem_cons_of_mem _ h)) r hr' hfr'
          exact ⟨cl, List.mem_cons_of_mem _ hcl, hrcl⟩

theorem clusters_aux_pairwise (rooms : List Room) :
    ∀ (rest : List Room) (v : Finset ℕ), (∀ r ∈ rest, r ∈ rooms) →
      List.Pairwise (fun c1 c2 => ∀ r, r ∈ c1 → r ∉ c2)
        (clusters_aux rooms rest v) := by
  intro rest
  induction rest with
  | nil => intro v _; rw [clusters_aux_eq_nil]; exact List.Pairwise.nil
  | cons room rest ih =>
    intro v hsub
    by_cases hv : room.rid ∈ v
    · rw [clusters_aux_eq_mem rooms room rest v hv]
      exact ih v (fun r hr => hsub r (List.mem_cons_of_mem _ hr))
    · obtain ⟨E1, E2, E3, E4, E5, E6⟩ := explore_cluster_spec rooms room v
      rw [clusters_aux_eq_fresh rooms room rest v hv
        (List.ne_nil_of_mem (E5 hv))]
      refine List.Pairwise.cons ?_
        (ih _ (fun r hr => hsub r (List.mem_cons_of_mem _ hr)))
      intro cl hcl r hrc0 hrcl
      have hfresh := (clusters_aux_sub rooms rest _
        (fun r' hr' => hsub r' (List.mem_cons_of_mem _ hr')) cl hcl r hrcl).2
      exact hfresh (Finset.mem_union_left _ (mem_ids.mpr ⟨r, hrc0, rfl⟩))

theorem clusters_aux_closed (rooms : List Room)
    (hnodup : (rooms.map Room.rid).Nodup) :
    ∀ (rest : List Room) (v : Finset ℕ), (∀ r ∈ rest, r ∈ rooms) →
      (∀ a ∈ rooms, a.rid ∈ v → ∀ b ∈ rooms, room_dist_sq a b ≤ 100 →
        b.rid ∈ v) →
      ∀ cl ∈ clusters_aux rooms rest v, ∀ a ∈ cl, ∀ b ∈ rooms,
        room_dist_sq a b ≤ 100 → b ∈ cl := by
  intro rest
  induction rest with
  | nil =>
    intro v _ _ cl hcl
    rw [clusters_aux_eq_nil] at hcl
    exact absurd hcl (List.not_mem_nil _)
  | cons room rest ih =>
    intro v hsub hclosed cl hcl a ha b hb hdist
    by_cases hv : room.rid ∈ v
    · rw [clusters_aux_eq_mem rooms room rest v hv] at hcl
      exact ih v (fun r hr => hsub r (List.mem_cons_of_mem _ hr)) hclosed
        cl hcl a ha b hb hdist
    · obtain ⟨E1, E2, E3, E4, E5, E6⟩ := explore_cluster_spec rooms room v
      rw [clusters_aux_eq_fresh rooms room rest v hv
        (List.ne_nil_of_mem (E5 hv))] at hcl
      have hc0_rooms : ∀ r ∈ explore_cluster rooms room v, r ∈ rooms := by
        intro r hr
        rcases E3 r hr with rfl | h
        · exact hsub r (List.mem_cons_self _ _)
        · exact h
      have hclosed' : ∀ a' ∈ rooms,
          a'.rid ∈ ids (explore_cluster rooms room v) ∪ v →
          ∀ b' ∈ rooms, room_dist_sq a' b' ≤ 100 →
          b'.rid ∈ ids (explore_cluster rooms room v) ∪ v := by
        intro a' ha' hid b' hb' hd'
        rcases Finset.mem_union.mp hid with hic | hiv
        · obtain ⟨r', hr'c0, hr'id⟩ := mem_ids.mp hic
          have heq : r' = a' :=
            rid_inj hnodup r' (hc0_rooms r' hr'c0) a' ha' hr'id
          exact E6 a' (heq ▸ hr'c0) b' hb' hd'
        · exact Finset.mem_union_right _ (hclosed a' ha' hiv b' hb' hd')
      rcases List.mem_cons.mp hcl with rfl | hcl
      · have hbid : b.rid ∈ ids (explore_cluster rooms room v) ∪ v :=
          E6 a ha b hb hdist
        rcases Finset.mem_union.mp hbid with hic | hiv
        · obtain ⟨r', hr'c0, hr'id⟩ := mem_ids.mp hic
          have heq : r' = b :=
            rid_inj hnodup r' (hc0_rooms r' hr'c0) b hb hr'id
          exact heq ▸ hr'c0
        · exfalso
          have hanear : room_dist_sq b a ≤ 100 := by
            rw [room_dist_sq_symm]
            exact hdist
          have haid : a.rid ∈ v :=
            hclosed b hb hiv a (hc0_rooms a ha) hanear
          exact E1 a ha haid
      · exact ih _ (fun r hr => hsub r (List.mem_cons_of_mem _ hr)) hclosed'
          cl hcl a ha b hb hdist

/-- Stable sort by centroid Y (`sorted(cluster, key=lambda r: r['centroid']['y'])`;
    Lean's `mergeSort` is stable, like Python's sort). -/
def sort_by_cy (l : List Room) : List Room :=
  l.mergeSort (fun a b => decide (a.cy ≤ b.cy))

/-- Stable sort by centroid X (`current_row.sort(key=lambda r: r['centroid']['x'])`). -/
def sort_by_cx (l : List Room) : List Room :=
  l.mergeSort (fun a b => decide (a.cx ≤ b.cx))

/-- Default used only to give `getLastD` a value; the accumulated row below is
    never empty, so it is never read. -/
def dummy_room : Room := ⟨0, 0, 0, 0, ⟨0, 0, 0, 0⟩⟩

/-- Row-accumulation walk of `_identify_room_rows` (lines 233-252): extend the
    current row while the next room's Y is within 8.0 of the last accumulated
    room's Y; otherwise close the row (kept only with ≥2 members, re-sorted by
    X) and start a new one; close the final row the same way. -/
def build_rows (cur : List Room) : List Room → List (List Room)
  | [] => if 2 ≤ cur.length then [sort_by_cx cur] else []
  | r :: rs =>
    if |r.cy - (cur.getLastD dummy_room).cy| ≤ 8 then
      build_rows (cur ++ [r]) rs
    else
      (if 2 ≤ cur.length then [sort_by_cx cur] else []) ++ build_rows [r] rs

/-- Models `_identify_room_rows` (lines 222-254). -/
def identify_room_rows (clusters : List (List Room)) : List (List Room) :=
  clusters.flatMap (fun cluster =>
    if cluster.length < 2 then []
    else
      match sort_by_cy cluster with
      | [] => []
      | r :: rest => build_rows [r] rest)

/-- Models `_rows_face_each_other` (lines 274-280): mean centroid-Y separation within
    the generous facing range [1.0, 15.0]. -/
def rows_face_each_other (row1 row2 : List Room) : Bool :=
  let row1_y := ((row1.map Room.cy).sum) / row1.length
  let row2_y := ((row2.map Room.cy).sum) / row2.length
  decide (1 ≤ |row1_y - row2_y| ∧ |row1_y - row2_y| ≤ 15)

/-- The fixed `self.safety_margin = 0.5`. -/
def safety_margin : ℚ := 1/2

/-- Models `_calculate_row_bounds` (lines 787-800).  On an empty row the Python
    `min()` raises and the handler returns the documented fallback box;
    analyzed rooms always carry a `bounds` key, so `_get_room_bounds` is a
    field read here. -/
def calculate_row_bounds : List Room → Bounds
  | [] => { minX := 0, minY := 0, maxX := 10, maxY := 10 }
  | r :: rs =>
    { minX := (rs.map (fun q => q.bounds.minX)).foldl min r.bounds.minX
      minY := (rs.map (fun q => q.bounds.minY)).foldl min r.bounds.minY
      maxX := (rs.map (fun q => q.bounds.maxX)).foldl max r.bounds.maxX
      maxY := (rs.map (fun q => q.bounds.maxY)).foldl max r.bounds.maxY }

/-- Models `_create_corridor_between_rows` (lines 282-319): intersect the rows'
    X-extents (`None` when empty); if the Y-extents overlap, center a corridor
    of width `corridor_width` at the overlap midpoint, else fill the gap inset
    by the safety margin.  The caller assigns id and type. -/
def create_corridor_between_rows (row1 row2 : List Room) (corridor_width : ℚ) :
    Option Corridor :=
  let row1_bounds := calculate_row_bounds row1
  let row2_bounds := calculate_row_bounds row2
  let min_x := max row1_bounds.minX row2_bounds.minX
  let max_x := min row1_bounds.maxX row2_bounds.maxX
  if max_x ≤ min_x then none
  else
    let gap := row2_bounds.minY - row1_bounds.maxY
    let corridor_y :=
      if gap ≤ 0 then (row1_bounds.maxY + row2_bounds.minY) / 2 - corridor_width / 2
      else row1_bounds.maxY + safety_margin
    let corridor_height :=
      if gap ≤ 0 then corridor_width
      else max corridor_width (gap - 2 * safety_margin)
    some { cid := "", ctype := "", x := min_x, y := corridor_y,
           width := max_x - min_x, height := corridor_height,
           area := (max_x - min_x) * corridor_height, direction := "horizontal" }

/-- Loop of `_generate_main_corridors` (lines 261-270) over adjacent row
    pairs; `cnt` is `len(corridors)`, used for the assigned id. -/
def generate_main_aux (corridor_width : ℚ) : List (List Room) → ℕ → List Corridor
  | row1 :: row2 :: rest, cnt =>
    if rows_face_each_other row1 row2 then
      match create_corridor_between_rows row1 row2 corridor_width with
      | some c =>
        { c with cid := "main_corridor_" ++ toString cnt, ctype := "main" }
          :: generate_main_aux corridor_width (row2 :: rest) (cnt + 1)
      | none => generate_main_aux corridor_width (row2 :: rest) cnt
    else generate_main_aux corridor_width (row2 :: rest) cnt
  | _, _ => []

/-- Models `_generate_main_corridors` (lines 256-272); the `bounds` argument is
    accepted but never read, as in the source. -/
def generate_main_corridors (room_rows : List (List Room)) (corridor_width : ℚ)
    (_bounds : Bounds) : List Corridor :=
  generate_main_aux corridor_width room_rows 0

/-- Models `range(a, b, 10)` over machine integers. -/
def range_step10 (a b : ℤ) : List ℤ :=
  if a < b then a :: range_step10 (a + 10) b else []
termination_by (b - a).toNat
decreasing_by
  simp_wf
  omega

/-- Models `_generate_grid_based_corridors` (lines 321-373): horizontal corridors at
    10 m Y-intervals having ≥2 rooms within 5 units, plus one left spine when
    any horizontal corridor was emitted.  On an empty room list the Python
    `min()` raises and the handler returns the empty list.  `bounds` carries
    no `width` key in this model, so `bounds.get('width', maxX - minX)`
    resolves to `maxX - minX`. -/
def generate_grid_based_corridors (rooms : List Room) (corridor_width : ℚ)
    (bounds : Bounds) : List Corridor :=
  match rooms with
  | [] => []
  | r0 :: rest =>
    let min_x := (rest.map Room.cx).foldl min r0.cx
    let min_y := (rest.map Room.cy).foldl min r0.cy
    let max_y := (rest.map Room.cy).foldl max r0.cy
    let y_positions := (range_step10 (pyInt min_y) (pyInt max_y + 1)).filter
      (fun y => decide (2 ≤ (rooms.filter
        (fun r => decide (|r.cy - (y : ℚ)| ≤ 5))).length))
    let horiz := y_positions.enum.map (fun iy =>
      ({ cid := "grid_horizontal_" ++ toString iy.1, ctype := "main",
         x := bounds.minX + 1, y := (iy.2 : ℚ) + 4,
         width := (bounds.maxX - bounds.minX) - 2, height := corridor_width,
         area := ((bounds.maxX - bounds.minX) - 2) * corridor_width,
         direction := "horizontal" } : Corridor))
    if horiz = [] then horiz
    else
      horiz ++ [{ cid := "grid_vertical_spine", ctype := "main",
                  x := min_x - 3, y := min_y - 2, width := corridor_width,
                  height := max_y - min_y + 4,
                  area := corridor_width * (max_y - min_y + 4),
                  direction := "vertical" }]

/-- Center point of a corridor rectangle. -/
def corridor_center (c : Corridor) : Point := (c.x + c.width / 2, c.y + c.height / 2)

/-- Models `_create_connecting_corridor` (lines 395-431): perpendicular connector
    between two corridor centers — vertical when the X-difference is below
    `2 × corridor_width`, horizontal otherwise.  Total; the handler is dead. -/
def create_connecting_corridor (c1 c2 : Corridor) (corridor_width : ℚ) : Corridor :=
  let p1 := corridor_center c1
  let p2 := corridor_center c2
  if |p1.1 - p2.1| < corridor_width * 2 then
    { cid := "", ctype := "", x := p1.1 - corridor_width / 2, y := min p1.2 p2.2,
      width := corridor_width, height := |p1.2 - p2.2|,
      area := corridor_width * |p1.2 - p2.2|, direction := "vertical" }
  else
    { cid := "", ctype := "", x := min p1.1 p2.1, y := p1.2 - corridor_width / 2,
      width := |p1.1 - p2.1|, height := corridor_width,
      area := |p1.1 - p2.1| * corridor_width, direction := "horizontal" }

/-- Loop of `_generate_connecting_corridors` (lines 381-389) over consecutive
    main-corridor pairs. -/
def generate_connecting_aux (corridor_width : ℚ) : List Corridor → ℕ → List Corridor
  | c1 :: c2 :: rest, cnt =>
    { create_connecting_corridor c1 c2 corridor_width with
        cid := "connecting_corridor_" ++ toString cnt, ctype := "connecting" }
      :: generate_connecting_aux corridor_width (c2 :: rest) (cnt + 1)
  | _, _ => []

/-- Models `_generate_connecting_corridors` (lines 375-393). -/
def generate_connecting_corridors (main_corridors : List Corridor)
    (corridor_width : ℚ) : List Corridor :=
  generate_connecting_aux corridor_width main_corridors 0

/-- An entrance record: explicit center, a segment, a polygon, or nothing
    usable, mirroring the key combinations `_get_entrance_center` accepts. -/
inductive Entrance where
  | center (c : Point)
  | segment (s e : Point)
  | polygon (ps : List Point)
  | raw
deriving DecidableEq

/-- Models `_get_entrance_center` (lines 802-823): explicit center, else segment
    midpoint, else vertex average of a nonempty polygon, else `None`. -/
def get_entrance_center : Entrance → Option Point
  | .center c => some c
  | .segment s e => some ((s.1 + e.1) / 2, (s.2 + e.2) / 2)
  | .polygon ps =>
    if ps = [] then none
    else some ((ps.map Prod.fst).sum / ps.length, (ps.map Prod.snd).sum / ps.length)
  | .raw => none

/-- Squared distance between points (see `room_dist_sq` for why squares). -/
def point_dist_sq (p q : Point) : ℚ := (p.1 - q.1) ^ 2 + (p.2 - q.2) ^ 2

/-- Models `_find_nearest_corridor` (lines 825-851): running minimum with a strict
    `<`, so the first corridor of minimal center distance wins; `sqrt` is
    strictly monotone, so comparing squared distances decides identically. -/
def find_nearest_corridor (point : Point) (corridors : List Corridor) :
    Option Corridor :=
  match corridors with
  | [] => none
  | c :: cs => some (cs.foldl (fun best cand =>
      if point_dist_sq point (corridor_center cand) <
          point_dist_sq point (corridor_center best)
      then cand else best) c)

/-- Models `_create_access_corridor` (lines 853-895): straight strip from the
    entrance center to the target corridor's center, horizontal when the
    X-delta dominates.  Total on this data; the fallback dict is dead. -/
def create_access_corridor (entrance_center : Point) (target : Corridor)
    (corridor_width : ℚ) : Corridor :=
  let tc := corridor_center target
  let dx := |entrance_center.1 - tc.1|
  let dy := |entrance_center.2 - tc.2|
  if dy < dx then
    { cid := "", ctype := "", x := min entrance_center.1 tc.1,
      y := entrance_center.2 - corridor_width / 2,
      width := dx, height := corridor_width, area := dx * corridor_width,
      direction := "horizontal" }
  else
    { cid := "", ctype := "", x := entrance_center.1 - corridor_width / 2,
      y := min entrance_center.2 tc.2,
      width := corridor_width, height := dy, area := corridor_width * dy,
      direction := "vertical" }

/-- Loop of `_generate_access_corridors` (lines 439-453); `i` is the
    `enumerate` index (it advances even for skipped entrances). -/
def generate_access_aux (existing : List Corridor) (corridor_width : ℚ) :
    List Entrance → ℕ → List Corridor
  | [], _ => []
  | e :: es, i =>
    match get_entrance_center e with
    | none => generate_access_aux existing corridor_width es (i + 1)
    | some ec =>
      match find_nearest_corridor ec existing with
      | none => generate_access_aux existing corridor_width es (i + 1)
      | some nearest =>
        { create_access_corridor ec nearest corridor_width with
            cid := "access_corridor_" ++ toString i, ctype := "access" }
          :: generate_access_aux existing corridor_width es (i + 1)

/-- Models `_generate_access_corridors` (lines 433-457). -/
def generate_access_corridors (entrances : List Entrance)
    (existing_corridors : List Corridor) (corridor_width : ℚ) : List Corridor :=
  generate_access_aux existing_corridors corridor_width entrances 0

/-- Python `min(list, key=...)`: the running minimum replaces only on strict
    decrease, so the first element of minimal key is kept. -/
def argmin_x (c : Corridor) (cs : List Corridor) : Corridor :=
  cs.foldl (fun best cand => if cand.x < best.x then cand else best) c

/-- Python `max(list, key=...)`: replaces only on strict increase, so the
    first element of maximal key is kept. -/
def argmax_right (c : Corridor) (cs : List Corridor) : Corridor :=
  cs.foldl (fun best cand =>
    if best.x + best.width < cand.x + cand.width then cand else best) c

theorem argmin_x_spec (cs : List Corridor) :
    ∀ c, argmin_x c cs ∈ c :: cs ∧ ∀ d ∈ c :: cs, (argmin_x c cs).x ≤ d.x := by
  induction cs with
  | nil =>
    intro c
    refine ⟨by simp [argmin_x], ?_⟩
    intro d hd
    rw [List.mem_singleton] at hd
    subst hd
    simp [argmin_x]
  | cons e es ih =>
    intro c
    have hstep : argmin_x c (e :: es) = argmin_x (if e.x < c.x then e else c) es := by
      simp [argmin_x]
    obtain ⟨ihmem, ihle⟩ := ih (if e.x < c.x then e else c)
    constructor
    · rw [hstep]
      rcases List.mem_cons.mp ihmem with h | h
      · rw [h]
        by_cases hx : e.x < c.x
        · simp [hx]
        · simp [hx]
      · exact List.mem_cons_of_mem _ (List.mem_cons_of_mem _ h)
    · intro d hd
      rw [hstep]
      have hbase : (argmin_x (if e.x < c.x then e else c) es).x ≤
          (if e.x < c.x then e else c).x :=
        ihle _ (List.mem_cons_self _ _)
      have hbc : (if e.x < c.x then e else c).x ≤ c.x := by
        by_cases hx : e.x < c.x
        · rw [if_pos hx]; exact le_of_lt hx
        · rw [if_neg hx]
      have hbe : (if e.x < c.x then e else c).x ≤ e.x := by
        by_cases hx : e.x < c.x
        · rw [if_pos hx]
        · rw [if_neg hx]; exact le_of_not_lt hx
      rcases List.mem_cons.mp hd with h | h
      · subst h
        exact le_trans hbase hbc
      rcases List.mem_cons.mp h with h' | h'
      · subst h'
        exact le_trans hbase hbe
      · exact ihle d (List.mem_cons_of_mem _ h')

theorem argmax_right_spec (cs : List Corridor) :
    ∀ c, argmax_right c cs ∈ c :: cs ∧
      ∀ d ∈ c :: cs, d.x + d.width ≤ (argmax_right c cs).x + (argmax_right c cs).width := by
  induction cs with
  | nil =>
    intro c
    refine ⟨by simp [argmax_right], ?_⟩
    intro d hd
    rw [List.mem_singleton] at hd
    subst hd
    simp [argmax_right]
  | cons e es ih =>
    intro c
    have hstep : argmax_right c (e :: es) =
        argmax_right (if c.x + c.width < e.x + e.width then e else c) es := by
      simp [argmax_right]
    obtain ⟨ihmem, ihge⟩ := ih (if c.x + c.width < e.x + e.width then e else c)
    constructor
    · rw [hstep]
      rcases List.mem_cons.mp ihmem with h | h
      · rw [h]
        by_cases hx : c.x + c.width < e.x + e.width
        · simp [hx]
        · simp [hx]
      · exact List.mem_cons_of_mem _ (List.mem_cons_of_mem _ h)
    · intro d hd
      rw [hstep]
      have hbase : (if c.x + c.width < e.x + e.width then e else c).x +
          (if c.x + c.width < e.x + e.width then e else c).width ≤
          (argmax_right (if c.x + c.width < e.x + e.width then e else c) es).x +
          (argmax_right (if c.x + c.width < e.x + e.width then e else c) es).width :=
        ihge _ (List.mem_cons_self _ _)
      have hbc : c.x + c.width ≤ (if c.x + c.width < e.x + e.width then e else c).x +
          (if c.x + c.width < e.x + e.width then e else c).width := by
        by_cases hx : c.x + c.width < e.x + e.width
        · rw [if_pos hx]; exact le_of_lt hx
        · rw [if_neg hx]
      have hbe : e.x + e.width ≤ (if c.x + c.width < e.x + e.width then e else c).x +
          (if c.x + c.width < e.x + e.width then e else c).width := by
        by_cases hx : c.x + c.width < e.x + e.width
        · rw [if_pos hx]
        · rw [if_neg hx]; exact le_of_not_lt hx
      rcases List.mem_cons.mp hd with h | h
      · subst h
        exact le_trans hbc hbase
      rcases List.mem_cons.mp h with h' | h'
      · subst h'
        exact le_trans hbe hbase
      · exact ihge d (List.mem_cons_of_mem _ h')

/-- Models `_generate_vertical_circulation` (lines 459-488): one left spine at
    `leftmost.x - corridor_width - 1.0`, from `leftmost.y` up to
    `rightmost.y + rightmost.height` (leftmost = minimal `x`; rightmost =
    maximal `x + width`), kept only if strictly taller than 5.0.  The `rooms`
    argument is accepted but never read, as in the source. -/
def generate_vertical_circulation (_rooms : List Room)
    (main_corridors : List Corridor) (corridor_width : ℚ) : List Corridor :=
  match main_corridors with
  | [] => []
  | m :: ms =>
    let leftmost := argmin_x m ms
    let rightmost := argmax_right m ms
    let left_spine : Corridor :=
      { cid := "vertical_spine_left", ctype := "vertical_spine",
        x := leftmost.x - corridor_width - 1, y := leftmost.y,
        width := corridor_width,
        height := (rightmost.y + rightmost.height) - leftmost.y,
        area := corridor_width * ((rightmost.y + rightmost.height) - leftmost.y),
        direction := "vertical" }
    if 5 < left_spine.height then [left_spine] else []

/-- Generation options, with the resolved defaults `corridor_width = 1.2` and
    `generate_arrows = True`.  The arrow flag only gates arrow generation,
    which no claim reads. -/
structure GenOptions where
  corridor_width : ℚ
  generate_arrows : Bool
deriving DecidableEq

/-- The resolved option defaults. -/
def default_options : GenOptions := { corridor_width := 6/5, generate_arrows := true }

/-- The `statistics` dict of `generate_corridor_network` (lines 156-164). -/
structure Statistics where
  total_corridors : ℕ
  main_corridors : ℕ
  connecting_corridors : ℕ
  access_corridors : ℕ
  vertical_corridors : ℕ
  total_corridor_area : ℚ
  average_width : ℚ
deriving DecidableEq

/-- The fields of an `analyze_floor_plan` result consumed by
    `generate_corridor_network` (walls, forbidden zones and the occupancy grid
    are never read by it). -/
structure Analysis where
  rooms : List Room
  entrances : List Entrance
  bounds : Bounds
deriving DecidableEq

/-- Result of `generate_corridor_network`, projected onto the corridor list
    and statistics; the arrow list and metadata are read by no claim and do
    not influence these fields. -/
structure NetworkResult where
  corridors : List Corridor
  statistics : Statistics
deriving DecidableEq

/-- Models `generate_corridor_network` (lines 90-178): clusters → rows → main
    corridors (grid fallback when none and rooms exist) → connecting → access
    → vertical spine → optimize; statistics computed from the pieces. -/
def generate_corridor_network (analysis : Analysis) (options : GenOptions) :
    NetworkResult :=
  let corridor_width := options.corridor_width
  let rooms := analysis.rooms
  let room_clusters := identify_room_clusters rooms
  let room_rows := identify_room_rows room_clusters
  let main0 := generate_main_corridors room_rows corridor_width analysis.bounds
  let fallback := main0 = [] ∧ rooms ≠ []
  let grid := if fallback then
    generate_grid_based_corridors rooms corridor_width analysis.bounds else []
  let main_corridors := if fallback then grid else main0
  let corridors1 := main0 ++ grid
  let connecting := generate_connecting_corridors main_corridors corridor_width
  let corridors2 := corridors1 ++ connecting
  let access := generate_access_corridors analysis.entrances corridors2 corridor_width
  let corridors3 := corridors2 ++ access
  let vertical := generate_vertical_circulation rooms main_corridors corridor_width
  let corridors4 := corridors3 ++ vertical
  let optimized := optimize_corridor_network corridors4
  { corridors := optimized
    statistics :=
      { total_corridors := optimized.length
        main_corridors := main_corridors.length
        connecting_corridors := connecting.length
        access_corridors := access.length
        vertical_corridors := vertical.length
        total_corridor_area := (optimized.map Corridor.area).sum
        average_width := corridor_width } }

end CorridorGen

namespace ThreeStage

/-- Room bounding boxes have the same shape in both modules. -/
abbrev Bounds := CorridorGen.Bounds

/-- An analyzed room as produced by `_analyze_individual_room` (lines
    268-294), restricted to the fields read downstream: id, area, centroid,
    type, bounds.  The stored `suitability` dict is a pure function of the
    same `area`/`type` fields and is recomputed by `assess_ilot_suitability`
    where the source reads it. -/
structure ARoom where
  rid : String
  area : ℚ
  cx : ℚ
  cy : ℚ
  rtype : String
  bounds : Bounds
deriving DecidableEq

/-- The allowed room types of `_assess_ilot_suitability` (line 575). -/
def suitable_types : List String :=
  ["office", "workspace", "meeting", "conference", "open_office"]

/-- Models `_assess_ilot_suitability` (lines 573-586), projected onto the `suitable`
    flag (the score and reasons are never read by placement). -/
def assess_ilot_suitability (area : ℚ) (room_type : String) : Bool :=
  decide (py_lower room_type ∈ suitable_types) && decide ((10 : ℚ) ≤ area)

/-- One entry of the `size_categories` table (lines 302-307). -/
structure SizeCategory where
  min_area : ℚ
  max_area : ℚ
  min_cap : ℤ
  max_cap : ℤ
deriving DecidableEq

/-- The fixed `size_categories` table of `_generate_ilots_by_distribution`. -/
def size_categories : List (String × SizeCategory) :=
  [("1-3", ⟨3, 8, 1, 3⟩), ("3-5", ⟨8, 15, 3, 5⟩),
   ("5-10", ⟨15, 30, 5, 10⟩), ("10-15", ⟨30, 50, 10, 15⟩)]

/-- Models `_determine_workspace_type` (lines 588-597). -/
def determine_workspace_type (capacity : ℤ) : String :=
  if capacity ≤ 1 then "individual_desk"
  else if capacity ≤ 3 then "small_team"
  else if capacity ≤ 6 then "team_workspace"
  else "collaboration_area"

/-- A generated unit, projected onto the fields any claim reads.  The source
    additionally derives `width = sqrt(area * aspect_ratio)` (aspect ratio
    1.3-1.7) and `height = area / width`; those values are irrational and no
    claim mentions them, so they are not carried here. -/
structure GenIlot where
  gid : ℕ
  category : String
  area : ℚ
  capacity : ℤ
  wtype : String
deriving DecidableEq

/-- Per-category inner loop of `_generate_ilots_by_distribution` (lines
    315-343): `num = max(1, int(category_area / avg_ilot_size))` units, with
    area and capacity linearly interpolated over the unit index; `counter` is
    the running `ilot_counter` embedded in each id. -/
def ilots_for_category (cat : String) (info : SizeCategory) (category_area : ℚ)
    (counter : ℕ) : List GenIlot :=
  let avg_ilot_size := (info.min_area + info.max_area) / 2
  let num_ilots := (max 1 (pyInt (category_area / avg_ilot_size))).toNat
  (List.range num_ilots).map (fun (i : ℕ) =>
    let area_factor := (i : ℚ) / ((max 1 (num_ilots - 1) : ℕ) : ℚ)
    let area := info.min_area + area_factor * (info.max_area - info.min_area)
    let capacity := pyInt ((info.min_cap : ℚ) +
      area_factor * ((info.max_cap : ℚ) - (info.min_cap : ℚ)))
    { gid := (counter + i : ℕ), category := cat, area := area, capacity := capacity,
      wtype := determine_workspace_type capacity })

/-- Loop of `_generate_ilots_by_distribution` over the distribution entries;
    categories absent from `size_categories` are skipped. -/
def gen_ilots_aux (target_area : ℚ) : List (String × ℚ) → ℕ → List GenIlot
  | [], _ => []
  | (category, percentage) :: rest, counter =>
    match size_categories.lookup category with
    | none => gen_ilots_aux target_area rest counter
    | some info =>
      let block := ilots_for_category category info (target_area * percentage) counter
      block ++ gen_ilots_aux target_area rest (counter + block.length)

/-- Models `_generate_ilots_by_distribution` (lines 296-345).  The Python dict is
    modelled as an association list of (category, fraction) entries. -/
def generate_ilots_by_distribution (distribution : List (String × ℚ))
    (target_area : ℚ) : List GenIlot :=
  gen_ilots_aux target_area distribution 0

/-- A unit as consumed by `_place_ilots_optimally`: placement reads `area`,
    `width` and `height` and copies the identity fields through. -/
structure Ilot where
  iid : String
  category : String
  area : ℚ
  width : ℚ
  height : ℚ
  capacity : ℤ
  wtype : String
deriving DecidableEq

/-- A placed unit (`{**ilot, 'x':…, 'y':…, 'room_id':…, 'placed': True}`;
    the constant `placed` flag is omitted). -/
structure PlacedIlot where
  iid : String
  category : String
  area : ℚ
  width : ℚ
  height : ℚ
  capacity : ℤ
  wtype : String
  x : ℚ
  y : ℚ
  room_id : String
deriving DecidableEq

/-- Models `_calculate_optimal_position` (lines 599-616): margin-offset grid slot,
    shifted per already-placed unit in the room, clipped with `min` against
    the far walls. -/
def calculate_optimal_position (ilot : Ilot) (room : ARoom)
    (existing_ilots : List PlacedIlot) : ℚ × ℚ :=
  let bounds := room.bounds
  let margin : ℚ := 1/2
  let grid_x := bounds.minX + margin
  let grid_y := bounds.minY + margin
  let offset_x := (existing_ilots.length : ℚ) * (ilot.width + 1)
  let offset_y := ((existing_ilots.length / 2 : ℕ) : ℚ) * (ilot.height + 1)
  (min (grid_x + offset_x) (bounds.maxX - ilot.width - margin),
   min (grid_y + offset_y) (bounds.maxY - ilot.height - margin))

/-- One `room_usage` entry: used area and the units placed in that room. -/
structure Usage where
  used_area : ℚ
  ilots : List PlacedIlot

/-- Main loop of `_place_ilots_optimally` (lines 361-389): for each unit (in
    sorted order) find the first suitable room with
    `area − used ≥ unit.area × 1.3`, position the unit there, and charge the
    room's usage.  `usage` models the `room_usage` dict, keyed by room id
    (duplicate ids share one entry, exactly as a Python dict). -/
def place_loop (suitable_rooms : List ARoom) :
    List Ilot → (String → Usage) → List PlacedIlot
  | [], _ => []
  | ilot :: rest, usage =>
    match suitable_rooms.find? (fun room =>
        decide (ilot.area * (13/10) ≤ room.area - (usage room.rid).used_area)) with
    | none => place_loop suitable_rooms rest usage
    | some best_room =>
      let pos := calculate_optimal_position ilot best_room (usage best_room.rid).ilots
      let placed : PlacedIlot :=
        { iid := ilot.iid, category := ilot.category, area := ilot.area,
          width := ilot.width, height := ilot.height, capacity := ilot.capacity,
          wtype := ilot.wtype, x := pos.1, y := pos.2, room_id := best_room.rid }
      placed :: place_loop suitable_rooms rest (fun k =>
        if k = best_room.rid then
          { used_area := (usage best_room.rid).used_area + ilot.area * (13/10),
            ilots := (usage best_room.rid).ilots ++ [placed] }
        else usage k)

/-- Models `_place_ilots_optimally` (lines 347-390): filter suitable rooms, sort them
    by area descending, sort units by area descending (both sorts stable, as
    Python's), then run the greedy loop with empty initial usage. -/
def place_ilots_optimally (ilots : List Ilot) (rooms : List ARoom) :
    List PlacedIlot :=
  let suitable_rooms :=
    (rooms.filter (fun r => assess_ilot_suitability r.area r.rtype)).mergeSort
      (fun a b => decide (b.area ≤ a.area))
  let sorted_ilots := ilots.mergeSort (fun a b => decide (b.area ≤ a.area))
  place_loop suitable_rooms sorted_ilots (fun _ => { used_area := 0, ilots := [] })

/-- A three-stage corridor record (fields of the connector dicts). -/
structure TSCorridor where
  cid : String
  ctype : String
  x : ℚ
  y : ℚ
  width : ℚ
  height : ℚ
  area : ℚ
  connects : List String
  direction : String
deriving DecidableEq

/-- Models `_create_room_connector` (lines 618-633); total, never `None`. -/
def create_room_connector (room1 room2 : ARoom) (corridor_width : ℚ) :
    TSCorridor :=
  { cid := "connect_" ++ room1.rid ++ "_" ++ room2.rid
    ctype := "room_connector"
    x := min room1.cx room2.cx
    y := min room1.cy room2.cy - corridor_width / 2
    width := |room1.cx - room2.cx|
    height := corridor_width
    area := |room1.cx - room2.cx| * corridor_width
    connects := [room1.rid, room2.rid]
    direction := "horizontal" }

/-- Ordered pairs `(rooms[i], rooms[j])` with `i < j`
    (`for i, room1 in enumerate(rooms): for room2 in rooms[i+1:]`). -/
def room_pairs : List ARoom → List (ARoom × ARoom)
  | [] => []
  | r :: rs => rs.map (fun r2 => (r, r2)) ++ room_pairs rs

/-- Models `_generate_inter_room_corridors` (lines 432-451): connect room pairs whose
    centroid distance is in [5, 20] (squared distance in [25, 400]), then keep
    only the first three connectors (`return corridors[:3]`). -/
def generate_inter_room_corridors (rooms : List ARoom) (corridor_width : ℚ) :
    List TSCorridor :=
  (((room_pairs rooms).filter (fun pr =>
      decide (25 ≤ (pr.1.cx - pr.2.cx) ^ 2 + (pr.1.cy - pr.2.cy) ^ 2) &&
      decide ((pr.1.cx - pr.2.cx) ^ 2 + (pr.1.cy - pr.2.cy) ^ 2 ≤ 400))).map
    (fun pr => create_room_connector pr.1 pr.2 corridor_width)).take 3

end ThreeStage

/- ————————————————————————————————————————————————————————————————————————
   Claim theorems.  Each claim of the specification gets exactly one theorem
   (plus, where applicable, a witness instantiation and a counterexample).
   ———————————————————————————————————————————————————————————————————————— -/

open CorridorGen

/-- C10: `_generate_inter_room_corridors` returns at most 3 corridors, all of
    type `room_connector`, for every room list and corridor width. -/
theorem claim_C10 (rooms : List ThreeStage.ARoom) (corridor_width : ℚ) :
    (ThreeStage.generate_inter_room_corridors rooms corridor_width).length ≤ 3 ∧
    ∀ c ∈ ThreeStage.generate_inter_room_corridors rooms corridor_width,
      c.ctype = "room_connector" := by
  constructor
  · exact le_trans (List.length_take_le 3 _) (le_refl 3)
  · intro c hc
    have hc' := List.take_subset 3 _ hc
    obtain ⟨pr, _, rfl⟩ := List.mem_map.mp hc'
    rfl

/-- C3 (amended): the Network Optimizer never increases the corridor count, so
    a second application over its own output yields at most as many corridors;
    the count is not always preserved (see the counterexample). -/
theorem claim_C3 (corridors : List Corridor) :
    (optimize_corridor_network (optimize_corridor_network corridors)).length ≤
      (optimize_corridor_network corridors).length :=
  optimize_length_le _

/-- First corridor of the C3 counterexample: spans x ∈ [0,1]. -/
def c3A : Corridor := ⟨"A", "main", 0, 0, 1, 3, 3, "horizontal"⟩

/-- Second corridor of the C3 counterexample: spans x ∈ [2,3]; not adjacent to
    `c3A`, and scanned before `c3C` closes the gap. -/
def c3B : Corridor := ⟨"B", "main", 2, 0, 1, 3, 3, "horizontal"⟩

/-- Third corridor of the C3 counterexample: spans x ∈ [1,2], adjacent to both
    others. -/
def c3C : Corridor := ⟨"C", "main", 1, 0, 1, 3, 3, "horizontal"⟩

/-- C3 counterexample: on `[c3A, c3B, c3C]` one optimizer pass merges `c3A`
    with `c3C` (yielding x ∈ [0,2]) but leaves `c3B` separate, because `c3B`
    was scanned before the merge happened; the second pass then merges the
    result with `c3B`.  The corridor count drops from 2 to 1, so the optimizer
    is not idempotent in corridor count. -/
theorem claim_C3_counterexample :
    ¬ ((optimize_corridor_network (optimize_corridor_network [c3A, c3B, c3C])).length
       = (optimize_corridor_network [c3A, c3B, c3C]).length) := by
  norm_num [optimize_corridor_network, merge_pass, merge_scan,
    can_merge_corridors, merge_corridors, c3A, c3B, c3C, List.filter,
    abs_of_nonneg, abs_of_neg, List.cons_ne_nil]

/-- C1 (amended): if every input corridor satisfies `area == width * height`
    with nonnegative `width` and `height`, then every corridor surviving
    `_optimize_corridor_network` satisfies `area == width * height` and
    `area > 2.0`.  (Without the nonnegativity hypotheses the merge step can
    produce a degenerate union rectangle of area ≤ 2; see the
    counterexample.) -/
theorem claim_C1 (corridors : List Corridor)
    (h : ∀ c ∈ corridors, c.area = c.width * c.height ∧ 0 ≤ c.width ∧ 0 ≤ c.height) :
    ∀ c ∈ optimize_corridor_network corridors,
      c.area = c.width * c.height ∧ 2 < c.area := by
  intro c hc
  unfold optimize_corridor_network at hc
  by_cases hnil : corridors = []
  · rw [if_pos hnil] at hc
    exact absurd hc (List.not_mem_nil c)
  · rw [if_neg hnil] at hc
    have hgood := merge_pass_good (corridors.filter (fun c => decide (2 < c.area)))
      (fun d hd => by
        rw [List.mem_filter] at hd
        obtain ⟨hdc, hdec⟩ := hd
        obtain ⟨ha, hw, hh⟩ := h d hdc
        exact ⟨⟨hw, hh, ha⟩, by simpa using hdec⟩)
      c hc
    exact ⟨hgood.1.2.2, hgood.2⟩

/-- The corridor used to instantiate C1's witness: a 2×3 rectangle. -/
def c1W : Corridor := ⟨"w", "main", 0, 0, 2, 3, 6, "horizontal"⟩

/-- C1 witness: the amended claim applied at the one-element list `[c1W]`,
    whose hypotheses hold concretely. -/
theorem claim_C1_witness :
    (∀ c ∈ [c1W], c.area = c.width * c.height ∧ 0 ≤ c.width ∧ 0 ≤ c.height) ∧
    (∀ c ∈ optimize_corridor_network [c1W],
      c.area = c.width * c.height ∧ 2 < c.area) :=
  ⟨by norm_num [c1W], claim_C1 [c1W] (by norm_num [c1W])⟩

/-- First corridor of the C1 counterexample: negative extents, but
    `area = 9 = (-3)·(-3) = width·height` holds as stated by the claim. -/
def c1N1 : Corridor := ⟨"a", "main", 10, 10, -3, -3, 9, "horizontal"⟩

/-- Second corridor of the C1 counterexample; its right edge `7 + (-3) = 4`
    and `c1N1.x + c1N1.width = 7` make the two "adjacent" within tolerance. -/
def c1N2 : Corridor := ⟨"b", "main", 7, 10, -3, -3, 9, "horizontal"⟩

/-- C1 counterexample: both inputs satisfy `area == width * height` (and pass
    the area filter with area 9), yet the merged union rectangle degenerates
    to width 0, so the surviving corridor has area 0, not > 2.0. -/
theorem claim_C1_counterexample :
    ¬ ((∀ c ∈ [c1N1, c1N2], c.area = c.width * c.height) →
       ∀ c ∈ optimize_corridor_network [c1N1, c1N2],
         c.area = c.width * c.height ∧ 2 < c.area) := by
  intro h
  have h2 := h (by norm_num [c1N1, c1N2])
  norm_num [optimize_corridor_network, merge_pass, merge_scan,
    can_merge_corridors, merge_corridors, c1N1, c1N2, List.filter,
    abs_of_nonneg, abs_of_neg, List.cons_ne_nil] at h2

/-- C9: for every polygon with at least 3 vertices the computed area is
    unchanged by any cyclic rotation and by reversal of the vertex list; for
    fewer than 3 vertices the computed area is 0. -/
theorem claim_C9 (polygon : List Point) (k : ℕ) :
    (3 ≤ polygon.length →
      calculate_polygon_area (polygon.rotate k) = calculate_polygon_area polygon ∧
      calculate_polygon_area polygon.reverse = calculate_polygon_area polygon) ∧
    (polygon.length < 3 → calculate_polygon_area polygon = 0) := by
  refine ⟨fun _ => ⟨?_, ?_⟩, fun hlt => ?_⟩
  · unfold calculate_polygon_area
    rw [List.length_rotate, shoelace_sum_rotate]
  · unfold calculate_polygon_area
    rw [List.length_reverse, shoelace_sum_reverse, abs_neg]
  · unfold calculate_polygon_area
    rw [if_pos hlt]

/-- The triangle used to instantiate C9's witness. -/
def c9Tri : List Point := [(0, 0), (4, 0), (0, 3)]

/-- C9 witness: the claim applied to a concrete right triangle (area 6) under
    rotation by one and reversal. -/
theorem claim_C9_witness :
    (3 ≤ c9Tri.length) ∧
    (calculate_polygon_area (c9Tri.rotate 1) = calculate_polygon_area c9Tri ∧
     calculate_polygon_area c9Tri.reverse = calculate_polygon_area c9Tri) ∧
    calculate_polygon_area c9Tri = 6 :=
  ⟨by norm_num [c9Tri], (claim_C9 c9Tri 1).1 (by norm_num [c9Tri]),
    by norm_num [c9Tri, calculate_polygon_area, shoelace_sum, cross,
      List.rotate, abs_of_nonneg]⟩

/-- C8 (amended): whenever at least one main corridor exists, the spine
    produced by `_generate_vertical_circulation` is anchored to the
    extreme-left main corridor L (minimal `x`; first such on ties): it starts
    at `x = L.x - corridor_width - 1` and `y = L.y`, and its top is
    `R.y + R.height` where R is the corridor with maximal right edge
    `x + width` (not the maximal `y + height` over all main corridors, as the
    claim stated); the spine is emitted iff that height exceeds 5.0. -/
theorem claim_C8 (rooms : List Room) (main_corridors : List Corridor)
    (corridor_width : ℚ) (hne : main_corridors ≠ []) :
    ∃ L ∈ main_corridors, ∃ R ∈ main_corridors,
      (∀ c ∈ main_corridors, L.x ≤ c.x) ∧
      (∀ c ∈ main_corridors, c.x + c.width ≤ R.x + R.width) ∧
      generate_vertical_circulation rooms main_corridors corridor_width =
        (if 5 < (R.y + R.height) - L.y then
          [{ cid := "vertical_spine_left", ctype := "vertical_spine",
             x := L.x - corridor_width - 1, y := L.y, width := corridor_width,
             height := (R.y + R.height) - L.y,
             area := corridor_width * ((R.y + R.height) - L.y),
             direction := "vertical" }]
        else []) := by
  match main_corridors, hne with
  | m :: ms, _ =>
    obtain ⟨hLmem, hLle⟩ := argmin_x_spec ms m
    obtain ⟨hRmem, hRge⟩ := argmax_right_spec ms m
    exact ⟨argmin_x m ms, hLmem, argmax_right m ms, hRmem, hLle, hRge, rfl⟩

/-- First main corridor of the C8 instances: leftmost, sitting at y ∈ [5,6]. -/
def c8A : Corridor := ⟨"A", "main", 0, 5, 5, 1, 5, "horizontal"⟩

/-- Second main corridor of the C8 instances: further right, y ∈ [0,20], so it
    holds both the global minimum y and the global maximum y + height. -/
def c8B : Corridor := ⟨"B", "main", 10, 0, 2, 20, 40, "vertical"⟩

/-- C8 witness: the amended claim applied to `[c8A, c8B]`. -/
theorem claim_C8_witness :
    ∃ L ∈ [c8A, c8B], ∃ R ∈ [c8A, c8B],
      (∀ c ∈ [c8A, c8B], L.x ≤ c.x) ∧
      (∀ c ∈ [c8A, c8B], c.x + c.width ≤ R.x + R.width) ∧
      generate_vertical_circulation [] [c8A, c8B] (6/5) =
        (if 5 < (R.y + R.height) - L.y then
          [{ cid := "vertical_spine_left", ctype := "vertical_spine",
             x := L.x - 6/5 - 1, y := L.y, width := 6/5,
             height := (R.y + R.height) - L.y,
             area := 6/5 * ((R.y + R.height) - L.y),
             direction := "vertical" }]
        else []) :=
  claim_C8 [] [c8A, c8B] (6/5) (by simp)

/-- C8 counterexample: on `[c8A, c8B]` the emitted spine starts at
    `y = c8A.y = 5` (the leftmost corridor's y), not at the minimum y over all
    main corridors (0), so it does not span the corridors' full vertical
    extent [0, 20] as the claim states. -/
theorem claim_C8_counterexample :
    ¬ (∀ s ∈ generate_vertical_circulation [] [c8A, c8B] (6/5),
        s.y = 0 ∧ s.y + s.height = 20) := by
  intro h
  have h2 := h
  norm_num [generate_vertical_circulation, argmin_x, argmax_right,
    c8A, c8B] at h2

/-- C2: two adjacent rows that face each other (mean centroid-Y separation in
    [1, 15]), with nonempty X-overlap and positive vertical gap
    `g = row2.minY - row1.maxY`, produce exactly one main corridor: it is
    horizontal, typed `main`, spans exactly the rows' X-overlap, sits at
    `y = row1.maxY + 0.5` (the safety margin) and has height
    `max(corridor_width, g - 2·0.5)`. -/
theorem claim_C2 (row1 row2 : List Room) (corridor_width : ℚ) (bounds : Bounds)
    (hface : rows_face_each_other row1 row2 = true)
    (hoverlap : max (calculate_row_bounds row1).minX (calculate_row_bounds row2).minX
      < min (calculate_row_bounds row1).maxX (calculate_row_bounds row2).maxX)
    (hgap : 0 < (calculate_row_bounds row2).minY - (calculate_row_bounds row1).maxY) :
    generate_main_corridors [row1, row2] corridor_width bounds =
      [{ cid := "main_corridor_0", ctype := "main",
         x := max (calculate_row_bounds row1).minX (calculate_row_bounds row2).minX,
         y := (calculate_row_bounds row1).maxY + 1/2,
         width := min (calculate_row_bounds row1).maxX (calculate_row_bounds row2).maxX -
           max (calculate_row_bounds row1).minX (calculate_row_bounds row2).minX,
         height := max corridor_width
           ((calculate_row_bounds row2).minY - (calculate_row_bounds row1).maxY - 2 * (1/2)),
         area := (min (calculate_row_bounds row1).maxX (calculate_row_bounds row2).maxX -
           max (calculate_row_bounds row1).minX (calculate_row_bounds row2).minX) *
           max corridor_width
             ((calculate_row_bounds row2).minY - (calculate_row_bounds row1).maxY - 2 * (1/2)),
         direction := "horizontal" }] := by
  have hcc : create_corridor_between_rows row1 row2 corridor_width =
      some { cid := "", ctype := "",
             x := max (calculate_row_bounds row1).minX (calculate_row_bounds row2).minX,
             y := (calculate_row_bounds row1).maxY + 1/2,
             width := min (calculate_row_bounds row1).maxX (calculate_row_bounds row2).maxX -
               max (calculate_row_bounds row1).minX (calculate_row_bounds row2).minX,
             height := max corridor_width
               ((calculate_row_bounds row2).minY - (calculate_row_bounds row1).maxY - 2 * (1/2)),
             area := (min (calculate_row_bounds row1).maxX (calculate_row_bounds row2).maxX -
               max (calculate_row_bounds row1).minX (calculate_row_bounds row2).minX) *
               max corridor_width
                 ((calculate_row_bounds row2).minY - (calculate_row_bounds row1).maxY - 2 * (1/2)),
             direction := "horizontal" } := by
    unfold create_corridor_between_rows
    rw [if_neg (not_le.mpr hoverlap)]
    simp only [if_neg (not_le.mpr hgap), safety_margin]
  unfold generate_main_corridors generate_main_aux
  rw [if_pos hface, hcc]
  rfl

/-- First row of the C2 witness: three rooms, X-extent [0, 14], Y-extent
    [0, 5], centroids at y = 5/2. -/
def c2Row1 : List Room :=
  [⟨1, 2, 5/2, 20, ⟨0, 0, 4, 5⟩⟩, ⟨2, 7, 5/2, 20, ⟨5, 0, 9, 5⟩⟩,
   ⟨3, 12, 5/2, 20, ⟨10, 0, 14, 5⟩⟩]

/-- Second row of the C2 witness: three rooms, X-extent [2, 16], Y-extent
    [9, 14], centroids at y = 23/2; vertical gap 9 − 5 = 4. -/
def c2Row2 : List Room :=
  [⟨4, 4, 23/2, 20, ⟨2, 9, 6, 14⟩⟩, ⟨5, 9, 23/2, 20, ⟨7, 9, 11, 14⟩⟩,
   ⟨6, 14, 23/2, 20, ⟨12, 9, 16, 14⟩⟩]

/-- C2 witness: the spec's scenario — two rows of three rooms, vertical gap
    4.0, `corridor_width = 1.2`, margin 0.5 — gives exactly one main corridor
    of height max(1.2, 4 − 1) = 3 whose width 12 is the rows' X-overlap
    [2, 14]. -/
theorem claim_C2_witness :
    generate_main_corridors [c2Row1, c2Row2] (6/5) ⟨0, 0, 100, 100⟩ =
      [{ cid := "main_corridor_0", ctype := "main", x := 2, y := 11/2,
         width := 12, height := 3, area := 36, direction := "horizontal" }] := by
  have h1 : rows_face_each_other c2Row1 c2Row2 = true := by
    norm_num [rows_face_each_other, c2Row1, c2Row2, abs_of_nonneg, abs_of_neg]
  have hb1 : calculate_row_bounds c2Row1 = ⟨0, 0, 14, 5⟩ := by
    norm_num [calculate_row_bounds, c2Row1, min_def, max_def]
  have hb2 : calculate_row_bounds c2Row2 = ⟨2, 9, 16, 14⟩ := by
    norm_num [calculate_row_bounds, c2Row2, min_def, max_def]
  have h2 : max (calculate_row_bounds c2Row1).minX (calculate_row_bounds c2Row2).minX
      < min (calculate_row_bounds c2Row1).maxX (calculate_row_bounds c2Row2).maxX := by
    rw [hb1, hb2]
    norm_num [min_def, max_def]
  have h3 : 0 < (calculate_row_bounds c2Row2).minY - (calculate_row_bounds c2Row1).maxY := by
    rw [hb1, hb2]
    norm_num
  rw [claim_C2 c2Row1 c2Row2 (6/5) ⟨0, 0, 100, 100⟩ h1 h2 h3, hb1, hb2]
  norm_num [min_def, max_def]

/-- C7 (amended): the position computed by `_calculate_optimal_position`
    keeps the unit's rectangle entirely inside the assigned room's bounding
    box provided the unit has nonnegative dimensions and the box exceeds them
    by at least the 0.5 margin on each axis.  (The `min` clipping only bounds
    the far sides; for a unit larger than the room the position falls below
    `minX`/`minY` — see the counterexample.) -/
theorem claim_C7 (ilot : ThreeStage.Ilot) (room : ThreeStage.ARoom)
    (existing_ilots : List ThreeStage.PlacedIlot)
    (hw : 0 ≤ ilot.width) (hh : 0 ≤ ilot.height)
    (hx : room.bounds.minX + ilot.width + 1/2 ≤ room.bounds.maxX)
    (hy : room.bounds.minY + ilot.height + 1/2 ≤ room.bounds.maxY) :
    room.bounds.minX ≤ (ThreeStage.calculate_optimal_position ilot room existing_ilots).1 ∧
    (ThreeStage.calculate_optimal_position ilot room existing_ilots).1 + ilot.width
      ≤ room.bounds.maxX ∧
    room.bounds.minY ≤ (ThreeStage.calculate_optimal_position ilot room existing_ilots).2 ∧
    (ThreeStage.calculate_optimal_position ilot room existing_ilots).2 + ilot.height
      ≤ room.bounds.maxY := by
  have hoffx : (0:ℚ) ≤ (existing_ilots.length : ℚ) * (ilot.width + 1) :=
    mul_nonneg (Nat.cast_nonneg _) (by linarith)
  have hoffy : (0:ℚ) ≤ ((existing_ilots.length / 2 : ℕ) : ℚ) * (ilot.height + 1) :=
    mul_nonneg (Nat.cast_nonneg _) (by linarith)
  simp only [ThreeStage.calculate_optimal_position]
  refine ⟨le_min (by linarith) (by linarith), ?_, le_min (by linarith) (by linarith), ?_⟩
  · have h := min_le_right
      (room.bounds.minX + 1/2 + (existing_ilots.length : ℚ) * (ilot.width + 1))
      (room.bounds.maxX - ilot.width - 1/2)
    linarith
  · have h := min_le_right
      (room.bounds.minY + 1/2 + ((existing_ilots.length / 2 : ℕ) : ℚ) * (ilot.height + 1))
      (room.bounds.maxY - ilot.height - 1/2)
    linarith

/-- Room used by C7's witness and counterexample instances: a suitable office
    of area 100.  The witness variant has a 20×20 bounding box; the
    counterexample room `c7SmallRoom` keeps the recorded area 100 but has only
    a 2×2 bounding box, which placement never checks. -/
def c7Room : ThreeStage.ARoom := ⟨"r", 100, 10, 10, "office", ⟨0, 0, 20, 20⟩⟩

/-- The counterexample room: recorded area 100 (so the unit is accepted), but
    a bounding box of only 2×2. -/
def c7SmallRoom : ThreeStage.ARoom := ⟨"r", 100, 1, 1, "office", ⟨0, 0, 2, 2⟩⟩

/-- A 6×5 unit of area 30 (capacity 8). -/
def c7Ilot : ThreeStage.Ilot := ⟨"i", "5-10", 30, 6, 5, 8, "collaboration_area"⟩

/-- C7 witness: the amended claim applied to the 6×5 unit in the 20×20 room
    with no previously placed units. -/
theorem claim_C7_witness :
    c7Room.bounds.minX ≤ (ThreeStage.calculate_optimal_position c7Ilot c7Room []).1 ∧
    (ThreeStage.calculate_optimal_position c7Ilot c7Room []).1 + c7Ilot.width
      ≤ c7Room.bounds.maxX ∧
    c7Room.bounds.minY ≤ (ThreeStage.calculate_optimal_position c7Ilot c7Room []).2 ∧
    (ThreeStage.calculate_optimal_position c7Ilot c7Room []).2 + c7Ilot.height
      ≤ c7Room.bounds.maxY :=
  claim_C7 c7Ilot c7Room []
    (by norm_num [c7Ilot]) (by norm_num [c7Ilot])
    (by norm_num [c7Ilot, c7Room]) (by norm_num [c7Ilot, c7Room])

/-- C7 counterexample: `_place_ilots_optimally` places the 6×5 unit into the
    2×2-bounded room (the area check uses the recorded area 100, not the
    bounds), and the computed position x = min(0.5, 2 − 6 − 0.5) = −4.5 puts
    the unit's rectangle outside the room's bounding box. -/
theorem claim_C7_counterexample :
    ¬ (∀ p ∈ ThreeStage.place_ilots_optimally [c7Ilot] [c7SmallRoom],
        c7SmallRoom.bounds.minX ≤ p.x ∧
        p.x + p.width ≤ c7SmallRoom.bounds.maxX ∧
        c7SmallRoom.bounds.minY ≤ p.y ∧
        p.y + p.height ≤ c7SmallRoom.bounds.maxY) := by
  intro h
  have hsuit : ThreeStage.assess_ilot_suitability 100 "office" = true := by
    have hmem : py_lower "office" ∈ ThreeStage.suitable_types := by decide
    simp [ThreeStage.assess_ilot_suitability, hmem]
    norm_num
  have h2 := h
  norm_num [ThreeStage.place_ilots_optimally, ThreeStage.place_loop,
    ThreeStage.calculate_optimal_position, c7SmallRoom, c7Ilot, List.filter,
    hsuit, List.mergeSort, List.find?, min_def] at h2

theorem ilots_for_category_countP (cat cat' : String)
    (info : ThreeStage.SizeCategory) (category_area : ℚ) (counter : ℕ) :
    (ThreeStage.ilots_for_category cat info category_area counter).countP
        (fun i => i.category == cat') =
      if cat = cat' then
        (max 1 (pyInt (category_area / ((info.min_area + info.max_area) / 2)))).toNat
      else 0 := by
  unfold ThreeStage.ilots_for_category
  rw [List.countP_map]
  by_cases hc : cat = cat'
  · subst hc
    rw [if_pos rfl]
    simp [Function.comp_def, List.countP_true]
  · rw [if_neg hc]
    simp [Function.comp_def, beq_iff_eq, hc]

theorem gen_ilots_aux_countP_zero (target : ℚ) (category : String) :
    ∀ (dist : List (String × ℚ)) (counter : ℕ),
      category ∉ dist.map Prod.fst →
      (ThreeStage.gen_ilots_aux target dist counter).countP
        (fun i => i.category == category) = 0 := by
  intro dist
  induction dist with
  | nil => intro counter _; simp [ThreeStage.gen_ilots_aux]
  | cons hd tl ih =>
    intro counter hnot
    obtain ⟨k, f⟩ := hd
    simp only [List.map_cons, List.mem_cons, not_or] at hnot
    obtain ⟨hk, htl⟩ := hnot
    unfold ThreeStage.gen_ilots_aux
    cases hlk : ThreeStage.size_categories.lookup k with
    | none => exact ih _ htl
    | some info =>
      rw [List.countP_append, ilots_for_category_countP,
        if_neg (fun he => hk he.symm), zero_add]
      exact ih _ htl

theorem gen_ilots_aux_countP (target : ℚ) (category : String) (fraction : ℚ)
    (info : ThreeStage.SizeCategory)
    (hinfo : ThreeStage.size_categories.lookup category = some info) :
    ∀ (dist : List (String × ℚ)) (counter : ℕ),
      (category, fraction) ∈ dist →
      (dist.map Prod.fst).count category = 1 →
      (ThreeStage.gen_ilots_aux target dist counter).countP
          (fun i => i.category == category) =
        (max 1 (pyInt (target * fraction /
          ((info.min_area + info.max_area) / 2)))).toNat := by
  intro dist
  induction dist with
  | nil => intro counter hmem _; exact absurd hmem (List.not_mem_nil _)
  | cons hd tl ih =>
    intro counter hmem hcount
    obtain ⟨k, f⟩ := hd
    by_cases hk : k = category
    · have hcount_tl : (tl.map Prod.fst).count category = 0 := by
        simp only [List.map_cons, List.count_cons, beq_iff_eq] at hcount
        rw [if_pos hk] at hcount
        omega
      have hnotmem : category ∉ tl.map Prod.fst := by
        intro hmem'
        have := List.count_pos_iff.mpr hmem'
        omega
      have hf : f = fraction := by
        rcases List.mem_cons.mp hmem with heq | hmemtl
        · injection heq with h1 h2
          exact h2.symm
        · exact absurd (List.mem_map_of_mem Prod.fst hmemtl) hnotmem
      subst hf
      unfold ThreeStage.gen_ilots_aux
      rw [show ThreeStage.size_categories.lookup k = some info from by
          rw [hk]; exact hinfo,
        List.countP_append, ilots_for_category_countP, if_pos hk,
        gen_ilots_aux_countP_zero target category tl _ hnotmem, add_zero]
    · have hmem_tl : (category, fraction) ∈ tl := by
        rcases List.mem_cons.mp hmem with heq | h
        · exact absurd (congrArg Prod.fst heq).symm hk
        · exact h
      have hcount_tl : (tl.map Prod.fst).count category = 1 := by
        simp only [List.map_cons, List.count_cons, beq_iff_eq] at hcount
        rw [if_neg hk] at hcount
        simpa using hcount
      unfold ThreeStage.gen_ilots_aux
      cases hlk : ThreeStage.size_categories.lookup k with
      | none => exact ih _ hmem_tl hcount_tl
      | some info' =>
        rw [List.countP_append, ilots_for_category_countP, if_neg hk, zero_add]
        exact ih _ hmem_tl hcount_tl

/-- C6 (amended): `_generate_ilots_by_distribution` creates, per category
    appearing once in the distribution and known to the size table, exactly
    `max(1, int(category_budget / avg_size))` units, where `int` is Python's
    truncation (not rounding to nearest — see the counterexample),
    `category_budget = fraction × target_area` and `avg_size` is the mean of
    the category's configured min and max areas. -/
theorem claim_C6 (distribution : List (String × ℚ)) (target_area : ℚ)
    (category : String) (fraction : ℚ) (info : ThreeStage.SizeCategory)
    (hinfo : ThreeStage.size_categories.lookup category = some info)
    (hmem : (category, fraction) ∈ distribution)
    (huniq : (distribution.map Prod.fst).count category = 1) :
    ((ThreeStage.generate_ilots_by_distribution distribution target_area).countP
        (fun i => i.category == category)) =
      (max 1 (pyInt (target_area * fraction /
        ((info.min_area + info.max_area) / 2)))).toNat :=
  gen_ilots_aux_countP target_area category fraction info hinfo distribution 0
    hmem huniq

/-- The spec's scenario distribution. -/
def c6Dist : List (String × ℚ) :=
  [("1-3", 3/10), ("3-5", 2/5), ("5-10", 1/4), ("10-15", 1/20)]

/-- C6 witness: on the spec scenario (`target_area = 100`), category `1-3`
    has budget 30 and average size 5.5, so exactly
    `max(1, int(30/5.5)) = 5` units are generated. -/
theorem claim_C6_witness :
    ((ThreeStage.generate_ilots_by_distribution c6Dist 100).countP
        (fun i => i.category == "1-3")) = 5 := by
  have h := claim_C6 c6Dist 100 "1-3" (3/10) ⟨3, 8, 1, 3⟩ rfl
    (by simp [c6Dist]) (by simp [c6Dist])
  rw [h]
  have : pyInt ((100 : ℚ) * (3/10) / ((3 + 8) / 2)) = 5 := by
    simp only [pyInt]
    norm_num [Int.floor_eq_iff]
  rw [this]
  rfl

/-- The distribution of C6's counterexample: budget 31.9, average size 5.5,
    quotient 5.8. -/
def c6CexDist : List (String × ℚ) := [("1-3", 319/1000)]

/-- C6 counterexample: the code truncates, so 5 units are generated for the
    quotient 5.8, while the claim's `max(1, round(budget/avg))` demands 6. -/
theorem claim_C6_counterexample :
    ¬ (((ThreeStage.generate_ilots_by_distribution c6CexDist 100).countP
        (fun i => i.category == "1-3")) =
      (max 1 (round ((100 * (319/1000) : ℚ) / ((3 + 8) / 2)))).toNat) := by
  intro h
  have hl := gen_ilots_aux_countP 100 "1-3" (319/1000) ⟨3, 8, 1, 3⟩ rfl
    c6CexDist 0 (by simp [c6CexDist]) (by simp [c6CexDist])
  unfold ThreeStage.generate_ilots_by_distribution at h
  rw [hl] at h
  have h5 : pyInt ((100 : ℚ) * (319/1000) / ((3 + 8) / 2)) = 5 := by
    simp only [pyInt]
    norm_num [Int.floor_eq_iff]
  have h6 : round ((100 * (319/1000) : ℚ) / ((3 + 8) / 2)) = 6 := by
    rw [round_eq]
    norm_num [Int.floor_eq_iff]
  rw [h5, h6] at h
  exact absurd h (by decide)

theorem generate_access_aux_nil (corridor_width : ℚ) :
    ∀ (es : List Entrance) (i : ℕ),
      generate_access_aux [] corridor_width es i = [] := by
  intro es
  induction es with
  | nil => intro i; rfl
  | cons e es ih =>
    intro i
    unfold generate_access_aux
    cases get_entrance_center e with
    | none => exact ih _
    | some ec => exact ih _

/-- C4 (amended): on an analysis whose room list is empty (entrances and
    options arbitrary), `generate_corridor_network` returns an empty corridor
    list and zero-valued statistics — except `average_width`, which is always
    reported as the configured corridor width (1.2 by default), not zero — and
    being a total function it raises no exception. -/
theorem claim_C4 (analysis : Analysis) (options : GenOptions)
    (hrooms : analysis.rooms = []) :
    (generate_corridor_network analysis options).corridors = [] ∧
    (generate_corridor_network analysis options).statistics =
      { total_corridors := 0, main_corridors := 0, connecting_corridors := 0,
        access_corridors := 0, vertical_corridors := 0,
        total_corridor_area := 0,
        average_width := options.corridor_width } := by
  have haccess := generate_access_aux_nil options.corridor_width
    analysis.entrances 0
  constructor <;>
    simp [generate_corridor_network, hrooms, identify_room_clusters,
      identify_room_rows, generate_main_corridors, generate_main_aux,
      generate_connecting_corridors, generate_connecting_aux,
      generate_access_corridors, haccess, generate_vertical_circulation,
      optimize_corridor_network]

/-- C4 witness: the amended claim at a concrete analysis with one entrance and
    the default options. -/
theorem claim_C4_witness :
    (generate_corridor_network
        ⟨[], [.center (1, 20)], ⟨0, 0, 100, 100⟩⟩ default_options).corridors = [] ∧
    (generate_corridor_network
        ⟨[], [.center (1, 20)], ⟨0, 0, 100, 100⟩⟩ default_options).statistics =
      { total_corridors := 0, main_corridors := 0, connecting_corridors := 0,
        access_corridors := 0, vertical_corridors := 0,
        total_corridor_area := 0, average_width := 6/5 } :=
  claim_C4 ⟨[], [.center (1, 20)], ⟨0, 0, 100, 100⟩⟩ default_options rfl

/-- C4 counterexample: even with no rooms, the `average_width` statistics
    field equals the configured corridor width 1.2, so the statistics fields
    are not all zero as the claim states. -/
theorem claim_C4_counterexample :
    ¬ ((generate_corridor_network
        ⟨[], [], ⟨0, 0, 100, 100⟩⟩ default_options).statistics.average_width = 0) := by
  intro he
  have h2 : (6/5 : ℚ) = 0 := he
  norm_num at h2

/-- C5 (amended): for every list of analyzed rooms with pairwise distinct
    ids, `_identify_room_clusters` produces a partition of the room set —
    every room appears in some cluster, clusters draw only from the room list
    and are pairwise disjoint — and any two rooms connected by a chain of
    within-radius-10 hops (squared centroid distance ≤ 100) land in the same
    cluster.  (With duplicated ids a room can be lost; see the
    counterexample.) -/
theorem claim_C5 (rooms : List Room)
    (hnodup : (rooms.map Room.rid).Nodup) :
    (∀ r ∈ rooms, ∃ cl ∈ identify_room_clusters rooms, r ∈ cl) ∧
    (∀ cl ∈ identify_room_clusters rooms, ∀ r ∈ cl, r ∈ rooms) ∧
    List.Pairwise (fun c1 c2 => ∀ r, r ∈ c1 → r ∉ c2)
      (identify_room_clusters rooms) ∧
    (∀ a b : Room, Relation.ReflTransGen
        (fun x y => x ∈ rooms ∧ y ∈ rooms ∧ room_dist_sq x y ≤ 100) a b →
      ∀ cl ∈ identify_room_clusters rooms, a ∈ cl → b ∈ cl) := by
  by_cases hnil : rooms = []
  · subst hnil
    refine ⟨by simp, ?_, ?_, ?_⟩
    · intro cl hcl
      simp [identify_room_clusters] at hcl
    · simp [identify_room_clusters]
    · intro a b _ cl hcl
      simp [identify_room_clusters] at hcl
  · unfold identify_room_clusters
    rw [if_neg hnil]
    refine ⟨?_, ?_, ?_, ?_⟩
    · intro r hr
      exact clusters_aux_cover rooms hnodup rooms ∅ (fun r h => h) r hr
        (Finset.not_mem_empty _)
    · intro cl hcl r hr
      exact (clusters_aux_sub rooms rooms ∅ (fun r h => h) cl hcl r hr).1
    · exact clusters_aux_pairwise rooms rooms ∅ (fun r h => h)
    · intro a b hab
      induction hab with
      | refl => intro cl _ ha; exact ha
      | tail hxc hstep ih =>
        intro cl hcl ha
        obtain ⟨hcrooms, hbrooms, hdist⟩ := hstep
        exact clusters_aux_closed rooms hnodup rooms ∅ (fun r h => h)
          (fun a' _ ha' _ _ _ => absurd ha' (Finset.not_mem_empty _))
          cl hcl _ (ih cl hcl ha) _ hbrooms hdist

/-- First witness room for C5; within distance 10 of the second. -/
def c5w1 : Room := ⟨1, 0, 0, 10, ⟨0, 0, 1, 1⟩⟩

/-- Second witness room for C5. -/
def c5w2 : Room := ⟨2, 3, 0, 10, ⟨3, 0, 4, 1⟩⟩

/-- C5 witness: the amended claim's coverage part applied to two rooms with
    distinct ids. -/
theorem claim_C5_witness :
    ∃ cl ∈ identify_room_clusters [c5w1, c5w2], c5w1 ∈ cl :=
  (claim_C5 [c5w1, c5w2] (by decide)).1 c5w1 (by simp)

/-- First counterexample room for C5: id 0 at the origin. -/
def c5r1 : Room := ⟨0, 0, 0, 10, ⟨0, 0, 1, 1⟩⟩

/-- Second counterexample room for C5: the same id 0, but more than the
    proximity radius away from `c5r1`. -/
def c5r2 : Room := ⟨0, 100, 100, 10, ⟨0, 0, 1, 1⟩⟩

/-- C5 counterexample: with a duplicated room id, the second room is skipped
    (its id is already in `visited`) and belongs to no cluster, so the union
    of the clusters is not the full room list. -/
theorem claim_C5_counterexample :
    ¬ (∀ r ∈ [c5r1, c5r2], ∃ cl ∈ identify_room_clusters [c5r1, c5r2],
        r ∈ cl) := by
  intro h
  obtain ⟨cl, hcl, hmem⟩ := h c5r2 (by simp)
  have h1 : explore_cluster [c5r1, c5r2] c5r1 ∅ = [c5r1] := by
    rw [explore_cluster_eq_fresh _ _ _ (Finset.not_mem_empty _),
      explore_scan_eq_mem _ _ _ _ _ (by simp [c5r1]),
      explore_scan_eq_mem _ _ _ _ _ (by simp [c5r1, c5r2]),
      explore_scan_eq_nil]
  have heval : identify_room_clusters [c5r1, c5r2] = [[c5r1]] := by
    unfold identify_room_clusters
    rw [if_neg (by simp), clusters_aux_eq_fresh _ _ _ _
      (Finset.not_mem_empty _) (by rw [h1]; simp), h1,
      clusters_aux_eq_mem _ _ _ _ (by simp [ids, c5r1, c5r2]),
      clusters_aux_eq_nil]
  rw [heval] at hcl
  rw [List.mem_singleton] at hcl
  subst hcl
  rw [List.mem_singleton] at hmem
  have : (100 : ℚ) = 0 := congrArg Room.cx hmem
  norm_num at this

end FloorPlan
